import Mathlib

/-!
Shallow embedding of the otto upload service core: the content-addressable
deduplication layer (`src/services/FileService.js`), the resumable chunked
upload engine (`src/services/ChunkedUploadService.js`), their persistence
layer (`src/models/File.js`) and the pieces of the controllers that the
claims reference (`src/controllers/ChunkedUploadController.js`).

Modelling conventions:
* file bytes are `List Nat`;
* the filesystem is a finite map from path to bytes (association list);
* the PostgreSQL `files` table is a list of `FileRecord`s in insertion
  order (the dedup query `findByHash` has no ORDER BY and takes `rows[0]`,
  modelled as the first non-deleted match in insertion order);
* `uuidv4()` / `crypto.randomUUID()` draw fresh values from a counter;
* `Date.now()` is an explicit `now` field of the state;
* thrown `Error`s become an `Err` inductive carrying what the message
  carries; the controllers' message-substring dispatch is modelled on top.
-/

namespace Otto

/-- File contents: one natural number per byte. -/
abbrev Bytes := List Nat

/-- JavaScript `String.prototype.startsWith`, over the character lists. -/
def strStartsWith (s pre : String) : Bool :=
  pre.data.isPrefixOf s.data

/-- JavaScript `String.prototype.toLowerCase` (ASCII, like the contexts and
extensions it is applied to), modelled over the character list so that the
kernel can evaluate it. -/
def strToLower (s : String) : String := String.mk (s.data.map Char.toLower)

/-- JavaScript `String.prototype.includes`: substring containment. -/
def strIncludes (s sub : String) : Bool :=
  (List.range (s.data.length + 1)).any fun i => sub.data.isPrefixOf (s.data.drop i)

/-- Split a character list at a separator character (like `split('/')`). -/
def splitChar (sep : Char) (l : List Char) : List (List Char) :=
  l.foldr
    (fun c acc =>
      match acc with
      | [] => if c = sep then [[], []] else [[c]]
      | a :: rest => if c = sep then [] :: a :: rest else (c :: a) :: rest)
    [[]]

/-- One step of POSIX `path.normalize` segment processing (Node `path`). -/
def normStep (isAbs : Bool) (acc : List (List Char)) (seg : List Char) : List (List Char) :=
  if seg = [] ∨ seg = ['.'] then acc
  else if seg = ['.', '.'] then
    if isAbs then acc.dropLast
    else
      match acc.getLast? with
      | some l => if l = ['.', '.'] then acc ++ [seg] else acc.dropLast
      | none => [seg]
  else acc ++ [seg]

/-- Model of Node `path.normalize` for POSIX paths. -/
def pathNormalize (p : String) : String :=
  let isAbs := strStartsWith p "/"
  let segs := splitChar '/' p.data
  let out := segs.foldl (normStep isAbs) []
  let body := String.mk (List.intercalate ['/'] out)
  if isAbs then "/" ++ body
  else if out = [] then "." else body

/-- Model of Node `path.resolve` against a fixed process working directory. -/
def pathResolve (cwd p : String) : String :=
  if strStartsWith p "/" then pathNormalize p else pathNormalize (cwd ++ "/" ++ p)

/-- Model of Node `path.dirname` for POSIX paths. -/
def dirname (p : String) : String :=
  let segs := splitChar '/' p.data
  if segs.length ≤ 1 then "."
  else
    let body := String.mk (List.intercalate ['/'] segs.dropLast)
    if body = "" then (if strStartsWith p "/" then "/" else ".") else body

/-- Model of Node `path.extname` (`.bashrc`-style names have no extension). -/
def extname (p : String) : String :=
  let base := (splitChar '/' p.data).getLastD []
  let dotSplit := splitChar '.' base
  if dotSplit.length ≤ 1 then ""
  else if dotSplit.headD [] = [] ∧ dotSplit.length = 2 then ""
  else "." ++ String.mk (dotSplit.getLastD [])

/-- Content hash. The spec (§4.3) treats SHA-256 collisions as content
identity, trusting collision resistance, so the digest is idealised as an
injective function of the byte string — here, the bytes themselves. -/
def sha256 (b : Bytes) : Bytes := b

/-- Configuration surface consumed by the core (env vars and defaults from
`ChunkedUploadService`'s constructor and the controllers). -/
structure Config where
  chunkSize : Nat := 25 * 1024 * 1024
  sessionTimeout : Nat := 24 * 60 * 60 * 1000
  maxTotalFileSize : Nat := 1024 * 1024 * 1024
  tempDir : String := "/app/temp-chunks"
  uploadDir : String := "/app/uploads"
  cwd : String := "/app"

/-- External collaborators: zlib gzip (level 6) and sharp image re-encoding.
The spec (§4.3 step 3) delegates these transforms outside the core, so they
enter the model as unconstrained functions; `none` models a thrown error,
which `FileService` catches. -/
structure Env where
  gzip : Bytes → Bytes
  sharpEncode : String → Bytes → Option Bytes
  sharpThumb : Bytes → Option Bytes

/-- The on-disk state: a finite map from path to file bytes. Directories are
implicit (a `mkdirSync` is a no-op in this model). -/
abbrev FS := List (String × Bytes)

namespace FS

/-- Model of `fs.readFileSync` (as an `Option`; `none` models the thrown ENOENT). -/
def read (fs : FS) (p : String) : Option Bytes :=
  (fs.find? fun kv => kv.1 == p).map (·.2)

/-- Model of `fs.existsSync`. -/
def pathExists (fs : FS) (p : String) : Bool :=
  (fs.find? fun kv => kv.1 == p).isSome

/-- Model of `fs.writeFileSync` / stream write: create or overwrite. -/
def write (fs : FS) (p : String) (c : Bytes) : FS :=
  (p, c) :: fs.filter fun kv => kv.1 != p

/-- Model of `fs.unlinkSync`. -/
def unlink (fs : FS) (p : String) : FS :=
  fs.filter fun kv => kv.1 != p

/-- Remove every file under a directory prefix (the `readdirSync` +
per-file `unlinkSync` + `rmdirSync` sweep of `cleanupChunks`). -/
def removeDir (fs : FS) (d : String) : FS :=
  fs.filter fun kv => !strStartsWith kv.1 d

end FS

/-- One row of the `files` table (`src/models/File.js`); the free-form JSON
`metadata` column is not modelled (no claim reads it), and `deleted`
models `deleted_at IS NOT NULL`. -/
structure FileRecord where
  id : Nat
  filename : String
  originalName : String
  filePath : String
  mimeType : String
  fileSize : Nat
  uploadContext : String
  uploadedBy : String
  uploadSource : String
  isPublic : Bool
  fileHash : Bytes
  deleted : Bool
  deriving Repr, DecidableEq

/-- The `files` table, in insertion order. -/
abbrev DB := List FileRecord

/-- Model of `FileModel.findByHash`: first non-soft-deleted row with the hash. -/
def findByHash (db : DB) (h : Bytes) : Option FileRecord :=
  db.find? fun r => !r.deleted && r.fileHash == h

/-- Model of `FileModel.findById`: non-soft-deleted row with the id. -/
def findById (db : DB) (i : Nat) : Option FileRecord :=
  db.find? fun r => !r.deleted && r.id == i

/-- Model of `FileModel.softDelete`: set `deleted_at` on the matching live row. -/
def softDelete (db : DB) (i : Nat) : DB :=
  db.map fun r => if !r.deleted && r.id == i then { r with deleted := true } else r

/-- Model of `src/config/publicContexts.js`. -/
def PUBLIC_CONTEXTS : List String :=
  ["public", "avatars", "thumbnails", "assets", "static", "media"]

/-- Model of `isPublicContext` from `src/config/publicContexts.js`. -/
def isPublicContext (context : String) : Bool :=
  PUBLIC_CONTEXTS.contains (strToLower context)

/-- One chunk's receipt inside a session (`session.chunks` map values). -/
structure ChunkRecord where
  uploaded : Bool
  path : String
  size : Nat
  deriving Repr, DecidableEq

/-- An upload session (`ChunkedUploadService.initializeSession`). The
init-time pseudo-hash of name, size and date is never read afterwards and is
not modelled. -/
structure Session where
  id : Nat
  originalFilename : String
  totalSize : Nat
  totalChunks : Nat
  mimeType : String
  context : String
  uploadedBy : String
  uploadSource : String
  createdAt : Nat
  expiresAt : Nat
  chunks : List (Nat × ChunkRecord)
  completed : Bool
  processedFile : Option FileRecord
  finalFilePath : Option String
  deriving Repr, DecidableEq

/-- The whole mutable world: database, disk, in-memory session table, the
uuid source and the clock. -/
structure St where
  db : DB
  fs : FS
  sessions : List (Nat × Session)
  nextId : Nat
  now : Nat
  deriving Repr, DecidableEq

/-- Model of `this.uploadSessions.get(sessionId)`. -/
def getSession (st : St) (sid : Nat) : Option Session :=
  ((st.sessions).find? fun kv => kv.1 == sid).map (·.2)

/-- Model of `this.uploadSessions.set(session.id, session)`. -/
def putSession (st : St) (s : Session) : St :=
  { st with sessions := (s.id, s) :: st.sessions.filter fun kv => kv.1 != s.id }

/-- Model of `session.chunks.get(i)`. -/
def getChunk (chunks : List (Nat × ChunkRecord)) (i : Nat) : Option ChunkRecord :=
  (chunks.find? fun kv => kv.1 == i).map (·.2)

/-- Model of `session.chunks.set(i, r)`. -/
def setChunk (chunks : List (Nat × ChunkRecord)) (i : Nat) (r : ChunkRecord) :
    List (Nat × ChunkRecord) :=
  (i, r) :: chunks.filter fun kv => kv.1 != i

/-- Model of `session.chunks.has(i) && session.chunks.get(i).uploaded`. -/
def chunkUploaded (s : Session) (i : Nat) : Bool :=
  match getChunk s.chunks i with
  | some c => c.uploaded
  | none => false

/-- Model of `Array.from(session.chunks.values()).filter(c => c.uploaded).length`. -/
def countUploaded (chunks : List (Nat × ChunkRecord)) : Nat :=
  (chunks.filter fun kv => kv.2.uploaded).length

/-- The `missingChunks` list built by `getSessionStatus`: indices in
`[0, totalChunks)` without an uploaded record, in increasing order. -/
def missingChunksOf (s : Session) : List Nat :=
  (List.range s.totalChunks).filter fun i => !chunkUploaded s i

/-- The first missing index found by `assembleFile`'s verification loop. -/
def firstMissing (s : Session) : Option Nat :=
  (List.range s.totalChunks).find? fun i => !chunkUploaded s i

/-- Model of `path.join(this.tempDir, sessionId)`. -/
def sessionTempDirOf (cfg : Config) (sid : Nat) : String :=
  cfg.tempDir ++ "/" ++ toString sid

/-- Model of `path.join(sessionTempDir, 'chunk-' + chunkIndex)`. -/
def chunkPathOf (cfg : Config) (sid : Nat) (i : Nat) : String :=
  sessionTempDirOf cfg sid ++ "/chunk-" ++ toString i

/-- Model of `new Date() > session.expiresAt`. -/
def isSessionExpired (st : St) (s : Session) : Bool :=
  s.expiresAt < st.now

/-- Every thrown `Error` of the modelled core, carrying what the message
carries. `sizeMismatch` keeps the message's order (actual first). -/
inductive Err where
  | sessionNotFound
  | sessionExpired
  | invalidChunkIndex
  | missingChunk (i : Nat)
  | sizeMismatch (actual expected : Nat)
  | completedNoFile
  | storageFailure
  | noProcessedFile
  deriving Repr, DecidableEq

/-- The JS error message of each `Err` (parameters elided where they do not
affect the controllers' substring dispatch). -/
def errMessage : Err → String
  | .sessionNotFound => "Upload session not found or expired"
  | .sessionExpired => "Upload session has expired"
  | .invalidChunkIndex => "Invalid chunk index"
  | .missingChunk _ => "Missing chunk"
  | .sizeMismatch _ _ => "Assembled file size does not match expected size"
  | .completedNoFile => "Session completed but no processed file found"
  | .storageFailure => "storage failure"
  | .noProcessedFile => "FileService did not return any processed files"

/-- Model of `ChunkedUploadController.uploadChunk`'s catch block: messages containing
"not found" or "expired" become `404 SESSION_NOT_FOUND`. -/
def chunkUploadHttpCode (e : Err) : Nat × String :=
  if strIncludes (errMessage e) "not found" || strIncludes (errMessage e) "expired" then
    (404, "SESSION_NOT_FOUND")
  else
    (500, "CHUNK_UPLOAD_FAILED")

/-- A multer-style uploaded-file object as handed to `FileService`. -/
structure UploadedFile where
  path : String
  originalname : String
  filename : String
  mimetype : String
  size : Nat
  deriving Repr, DecidableEq

/-- The options object of `FileService.processUploadedFiles`. -/
structure ProcessOpts where
  context : String := "general"
  uploadedBy : String := "system"
  uploadSource : String := "api"
  generateThumbnails : Bool := false
  forcePublic : Option Bool := none
  deriving Repr, DecidableEq

/-- Model of `FileService.shouldCompress`. -/
def shouldCompress (mimeType : String) (fileSize : Nat) : Bool :=
  if fileSize < 1024 then false
  else
    let compressedTypes : List String :=
      ["image/jpeg", "image/png", "image/gif", "image/webp",
       "video/", "audio/", "application/zip", "application/gzip",
       "application/x-rar", "application/x-7z-compressed"]
    let compressibleTypes : List String :=
      ["text/", "application/json", "application/xml",
       "application/javascript", "application/css", "application/svg+xml"]
    if compressedTypes.any (fun t => strStartsWith mimeType t) then false
    else compressibleTypes.any (fun t => strStartsWith mimeType t)

/-- Result object of `FileService.compressFile`. -/
structure CompressOut where
  compressed : Bool
  originalSize : Nat
  compressedSize : Nat
  compressedPath : String
  deriving Repr, DecidableEq

/-- Model of `FileService.compressFile`: gzip if worthwhile; `ratio > 0.9` is the
exact rational comparison `10 * compressedSize > 9 * originalSize`. `none`
models the unrecoverable double `statSync` failure on a missing file. -/
def compressFile (env : Env) (fs : FS) (filePath mimeType : String) :
    Option (CompressOut × FS) :=
  match fs.read filePath with
  | none => none
  | some content =>
    let originalSize := content.length
    if !shouldCompress mimeType originalSize then
      some ({ compressed := false, originalSize := originalSize,
              compressedSize := originalSize, compressedPath := filePath }, fs)
    else
      let gz := env.gzip content
      let gzPath := filePath ++ ".gz"
      let fs1 := fs.write gzPath gz
      if 10 * gz.length > 9 * originalSize then
        some ({ compressed := false, originalSize := originalSize,
                compressedSize := originalSize, compressedPath := filePath },
              fs1.unlink gzPath)
      else
        some ({ compressed := true, originalSize := originalSize,
                compressedSize := gz.length, compressedPath := gzPath },
              fs1.unlink filePath)

/-- Model of `FileService.optimizeImage`: sharp re-encode kept only when it saves
over 10% (`optimizedSize < originalSize * 0.9`); all sharp errors are
caught and leave the file untouched. -/
def optimizeImage (env : Env) (fs : FS) (filePath mimeType : String) : Bool × FS :=
  if !strStartsWith mimeType "image/" || mimeType == "image/gif" then (false, fs)
  else
    match fs.read filePath with
    | none => (false, fs)
    | some content =>
      match env.sharpEncode mimeType content with
      | none => (false, fs)
      | some t =>
        let optPath := filePath ++ ".optimized"
        let fs1 := fs.write optPath t
        if 10 * t.length < 9 * content.length then
          (true, ((fs1.unlink filePath).unlink optPath).write filePath t)
        else
          (false, fs1.unlink optPath)

/-- Model of `FileService.getThumbnailPath`. -/
def getThumbnailPath (originalPath : String) (fileId : Nat) : String :=
  dirname originalPath ++ "/thumbnails/" ++ toString fileId ++ "_thumb.webp"

/-- Model of `FileService.generateThumbnail`: best-effort, failures swallowed. -/
def generateThumbnail (env : Env) (fs : FS) (filePath : String) (fileId : Nat) : FS :=
  match fs.read filePath with
  | none => fs
  | some content =>
    match env.sharpThumb content with
    | none => fs
    | some t => fs.write (getThumbnailPath filePath fileId) t

/-- The tail of `processUploadedFiles`'s loop body: the path taken when no
existing record is reused (no hash match, or the matched record's file is
missing from disk): optimize, compress, persist a fresh `FileRecord`. -/
def newFileBranch (env : Env) (opts : ProcessOpts) (st : St) (file : UploadedFile)
    (fileHash : Bytes) : Except Err FileRecord × St :=
  let fileId := st.nextId
  let st := { st with nextId := st.nextId + 1 }
  let isPub := opts.forcePublic.getD (isPublicContext opts.context)
  let fsA :=
    if strStartsWith file.mimetype "image/" then
      (optimizeImage env st.fs file.path file.mimetype).2
    else st.fs
  match compressFile env fsA file.path file.mimetype with
  | none =>
    -- the catch block removes the uploaded temporary if present, rethrows
    (.error .storageFailure, { st with fs := fsA.unlink file.path })
  | some (cres, fsB) =>
    let finalPath := cres.compressedPath
    let finalSize := if cres.compressed then cres.compressedSize else file.size
    let fsC :=
      if opts.generateThumbnails && strStartsWith file.mimetype "image/" then
        generateThumbnail env fsB finalPath fileId
      else fsB
    let newRec : FileRecord :=
      { id := fileId, filename := file.filename, originalName := file.originalname,
        filePath := finalPath, mimeType := file.mimetype, fileSize := finalSize,
        uploadContext := opts.context, uploadedBy := opts.uploadedBy,
        uploadSource := opts.uploadSource, isPublic := isPub,
        fileHash := fileHash, deleted := false }
    (.ok newRec, { st with db := st.db ++ [newRec], fs := fsC })

/-- One iteration of `FileService.processUploadedFiles`: hash, dedup lookup
with on-disk existence check, then either reuse the existing blob or store a
new one. -/
def processOneFile (env : Env) (opts : ProcessOpts) (st : St) (file : UploadedFile) :
    Except Err FileRecord × St :=
  match st.fs.read file.path with
  | none => (.error .storageFailure, st)
  | some content =>
    let fileHash := sha256 content
    match findByHash st.db fileHash with
    | some existing =>
      if st.fs.pathExists existing.filePath then
        let newRec : FileRecord :=
          { id := st.nextId, filename := existing.filename,
            originalName := file.originalname, filePath := existing.filePath,
            mimeType := file.mimetype, fileSize := file.size,
            uploadContext := opts.context, uploadedBy := opts.uploadedBy,
            uploadSource := opts.uploadSource,
            isPublic := opts.forcePublic.getD (isPublicContext opts.context),
            fileHash := fileHash, deleted := false }
        (.ok newRec,
         { st with db := st.db ++ [newRec], nextId := st.nextId + 1,
                   fs := st.fs.unlink file.path })
      else
        newFileBranch env opts st file fileHash
    | none => newFileBranch env opts st file fileHash

/-- Model of `FileService.processUploadedFiles` over a list of files (the loop throws
out at the first failure). -/
def processUploadedFiles (env : Env) (opts : ProcessOpts) (st : St) :
    List UploadedFile → Except Err (List FileRecord) × St
  | [] => (.ok [], st)
  | f :: rest =>
    match processOneFile env opts st f with
    | (.error e, st1) => (.error e, st1)
    | (.ok r, st1) =>
      match processUploadedFiles env opts st1 rest with
      | (.error e, st2) => (.error e, st2)
      | (.ok rs, st2) => (.ok (r :: rs), st2)

/-- Model of `FileService.validateFilePath` (directory-traversal guard). -/
def validateFilePath (cfg : Config) (filePath : String) : Bool :=
  let resolvedPath := pathResolve cfg.cwd filePath
  let normalizedPath := pathNormalize filePath
  if strIncludes normalizedPath ".." || strStartsWith normalizedPath "/" ||
      strStartsWith normalizedPath "\\" || resolvedPath != normalizedPath then
    false
  else
    strStartsWith resolvedPath (pathResolve cfg.cwd cfg.uploadDir)

/-- Model of `FileService.deleteFile`: soft delete the row, then remove the physical
file and its thumbnail — but only when `validateFilePath` accepts the
stored path. -/
def deleteFile (cfg : Config) (st : St) (fileId : Nat) : Except Err Bool × St :=
  match findById st.db fileId with
  | none => (.ok false, st)
  | some file =>
    let db1 := softDelete st.db fileId
    if !validateFilePath cfg file.filePath then
      (.ok true, { st with db := db1 })
    else
      let fs1 := if st.fs.pathExists file.filePath then st.fs.unlink file.filePath else st.fs
      let thumbPath := getThumbnailPath file.filePath fileId
      let fs2 := if fs1.pathExists thumbPath then fs1.unlink thumbPath else fs1
      (.ok true, { st with db := db1, fs := fs2 })

/-- Response of `initializeSession`. -/
structure InitOut where
  sessionId : Nat
  chunkSize : Nat
  expiresAt : Nat
  deriving Repr, DecidableEq

/-- Model of `ChunkedUploadService.initializeSession`: register a fresh session with
expiry `now + sessionTimeout` and an empty chunk map. -/
def initializeSession (cfg : Config) (st : St) (originalFilename : String)
    (totalSize totalChunks : Nat) (mimeType context uploadedBy uploadSource : String) :
    InitOut × St :=
  let sessionId := st.nextId
  let session : Session :=
    { id := sessionId, originalFilename := originalFilename, totalSize := totalSize,
      totalChunks := totalChunks, mimeType := mimeType, context := context,
      uploadedBy := uploadedBy, uploadSource := uploadSource,
      createdAt := st.now, expiresAt := st.now + cfg.sessionTimeout,
      chunks := [], completed := false, processedFile := none, finalFilePath := none }
  let st1 := putSession { st with nextId := st.nextId + 1 } session
  ({ sessionId := sessionId, chunkSize := cfg.chunkSize,
     expiresAt := session.expiresAt }, st1)

/-- Model of `Math.ceil(totalSize / chunkSize)` as computed by
`ChunkedUploadController.initializeUpload` (exact for sizes below 2^53). -/
def controllerTotalChunks (cfg : Config) (totalSize : Nat) : Nat :=
  (totalSize + cfg.chunkSize - 1) / cfg.chunkSize

/-- Model of `cleanupChunks`: delete every chunk file under the session's temp
directory; the session entry itself is kept. -/
def cleanupChunks (cfg : Config) (st : St) (sid : Nat) : St :=
  match getSession st sid with
  | none => st
  | some _ => { st with fs := st.fs.removeDir (sessionTempDirOf cfg sid ++ "/") }

/-- Model of `cleanupSession`: chunk sweep plus removal from the session table. -/
def cleanupSession (cfg : Config) (st : St) (sid : Nat) : St :=
  let st1 := cleanupChunks cfg st sid
  { st1 with sessions := st1.sessions.filter fun kv => kv.1 != sid }

/-- Model of `cancelSession`. -/
def cancelSession (cfg : Config) (st : St) (sid : Nat) : Bool × St :=
  match getSession st sid with
  | some _ => (true, cleanupSession cfg st sid)
  | none => (false, st)

/-- Response of `getSessionStatus` (the float `progress` percentage is
derivable from `uploadedChunks / totalChunks` and not modelled). -/
structure StatusOut where
  sessionId : Nat
  totalSize : Nat
  totalChunks : Nat
  uploadedChunks : Nat
  missingChunks : List Nat
  completed : Bool
  deriving Repr, DecidableEq

/-- Model of `ChunkedUploadService.getSessionStatus`: `none` for an absent session;
an expired session is purged and also reported as `none`. -/
def getSessionStatus (cfg : Config) (st : St) (sid : Nat) : Option StatusOut × St :=
  match getSession st sid with
  | none => (none, st)
  | some s =>
    if isSessionExpired st s then (none, cleanupSession cfg st sid)
    else
      (some { sessionId := s.id, totalSize := s.totalSize, totalChunks := s.totalChunks,
              uploadedChunks := countUploaded s.chunks,
              missingChunks := missingChunksOf s, completed := s.completed }, st)

/-- Model of `path.join(this.tempDir, sessionId + '-' + originalFilename)`. -/
def assembleTempPath (cfg : Config) (s : Session) : String :=
  cfg.tempDir ++ "/" ++ toString s.id ++ "-" ++ s.originalFilename

/-- The chunk-concatenation loop of `assembleFile`: read each chunk file in
index order `0, 1, …` and append it to the stream. `none` models a thrown
`readFileSync`. -/
def readChunks (fs : FS) (s : Session) : Option Bytes :=
  (List.range s.totalChunks).foldl
    (fun acc i =>
      match acc, getChunk s.chunks i with
      | some content, some r =>
        match fs.read r.path with
        | some data => some (content ++ data)
        | none => none
      | _, _ => none)
    (some [])

/-- Model of `ChunkedUploadService.processAssembledFile`: move the assembled file to
`uploadDir/context/<randomUUID><ext>` and feed it through
`FileService.processUploadedFiles` with the session's context, uploader,
source and metadata. -/
def processAssembledFile (cfg : Config) (env : Env) (st : St) (session : Session)
    (tempFilePath : String) : Except Err FileRecord × St :=
  let fileId := st.nextId
  let st := { st with nextId := st.nextId + 1 }
  let finalFilename := toString fileId ++ strToLower (extname session.originalFilename)
  let finalFilePath := cfg.uploadDir ++ "/" ++ session.context ++ "/" ++ finalFilename
  match st.fs.read tempFilePath with
  | none => (.error .storageFailure, st)
  | some c =>
    let fs1 := (st.fs.unlink tempFilePath).write finalFilePath c
    let fileObj : UploadedFile :=
      { path := finalFilePath, originalname := session.originalFilename,
        filename := finalFilename, mimetype := session.mimeType,
        size := session.totalSize }
    let opts : ProcessOpts :=
      { context := session.context, uploadedBy := session.uploadedBy,
        uploadSource := session.uploadSource, generateThumbnails := false,
        forcePublic := none }
    match processUploadedFiles env opts { st with fs := fs1 } [fileObj] with
    | (.error e, st2) => (.error e, st2)
    | (.ok [], st2) => (.error .noProcessedFile, st2)
    | (.ok (r :: _), st2) => (.ok r, st2)

/-- Model of `ChunkedUploadService.assembleFile`. Note the source checks only
absence from the table — there is no expiry check here. On any failure after
the write stream opened, the temporary assembly file is removed. -/
def assembleFile (cfg : Config) (env : Env) (st : St) (sid : Nat) :
    Except Err FileRecord × St :=
  match getSession st sid with
  | none => (.error .sessionNotFound, st)
  | some session =>
    if session.completed then
      match session.processedFile with
      | some f => (.ok f, st)
      | none => (.error .completedNoFile, st)
    else
      match firstMissing session with
      | some i => (.error (.missingChunk i), st)
      | none =>
        let tempFilePath := assembleTempPath cfg session
        match readChunks st.fs session with
        | none => (.error .storageFailure, { st with fs := st.fs.unlink tempFilePath })
        | some content =>
          let fs1 := st.fs.write tempFilePath content
          if content.length ≠ session.totalSize then
            (.error (.sizeMismatch content.length session.totalSize),
             { st with fs := fs1.unlink tempFilePath })
          else
            match processAssembledFile cfg env { st with fs := fs1 } session tempFilePath with
            | (.error e, st2) => (.error e, { st2 with fs := st2.fs.unlink tempFilePath })
            | (.ok pf, st2) =>
              let session2 : Session :=
                { session with
                    completed := true
                    finalFilePath := some pf.filePath
                    processedFile := some pf }
              (.ok pf, cleanupChunks cfg (putSession st2 session2) sid)

/-- Response of `uploadChunk`. -/
structure ChunkAck where
  chunkIndex : Nat
  uploadedChunks : Nat
  totalChunks : Nat
  completed : Bool
  deriving Repr, DecidableEq

/-- Model of `ChunkedUploadService.uploadChunk`. `diskOk` injects the outcome of the
`writeFileSync` of the chunk bytes (`false` models a thrown storage error,
which occurs before the chunk map is touched). An expired session is purged
before the expiry error is thrown. A negative index cannot occur here: the
controller rejects it, and the model's index is a `Nat`. When the recorded
count reaches `totalChunks`, assembly runs synchronously via `await` and
its failure propagates out of this call. -/
def uploadChunk (cfg : Config) (env : Env) (st : St) (sid : Nat) (chunkIndex : Nat)
    (chunkBuffer : Bytes) (chunkSize : Nat) (diskOk : Bool) :
    Except Err ChunkAck × St :=
  match getSession st sid with
  | none => (.error .sessionNotFound, st)
  | some session =>
    if isSessionExpired st session then
      (.error .sessionExpired, cleanupSession cfg st sid)
    else if session.totalChunks ≤ chunkIndex then
      (.error .invalidChunkIndex, st)
    else if !diskOk then
      (.error .storageFailure, st)
    else
      let chunkPath := chunkPathOf cfg sid chunkIndex
      let newChunk : ChunkRecord := { uploaded := true, path := chunkPath, size := chunkSize }
      let session1 : Session :=
        { session with chunks := setChunk session.chunks chunkIndex newChunk }
      let st1 := putSession { st with fs := st.fs.write chunkPath chunkBuffer } session1
      let uploadedCnt := countUploaded session1.chunks
      if uploadedCnt = session1.totalChunks then
        match assembleFile cfg env st1 sid with
        | (.ok _, st2) =>
          (.ok { chunkIndex := chunkIndex, uploadedChunks := uploadedCnt,
                 totalChunks := session1.totalChunks,
                 completed := ((getSession st2 sid).getD session1).completed }, st2)
        | (.error e, st2) => (.error e, st2)
      else
        (.ok { chunkIndex := chunkIndex, uploadedChunks := uploadedCnt,
               totalChunks := session1.totalChunks,
               completed := session1.completed }, st1)


/-! ### Concrete instances used by witnesses and counterexamples -/

/-- Witness configuration: the source defaults, rooted at `/app`. -/
def cfgW : Config := {}

/-- Witness environment: gzip crushes everything to a single byte; sharp
always throws (irrelevant for non-image witnesses). -/
def envW : Env :=
  { gzip := fun _ => [0], sharpEncode := fun _ _ => none, sharpThumb := fun _ => none }

/-- Witness state for the dedup-pair scenario: two byte-identical uploads
on disk, empty database. -/
def stDedup : St :=
  { db := [], sessions := [], nextId := 0, now := 0,
    fs := [("/app/uploads/a/u1.bin", [1, 2]), ("/app/uploads/b/u2.bin", [1, 2])] }

/-- First upload of the dedup-pair scenario (context "a"). -/
def fileW1 : UploadedFile :=
  { path := "/app/uploads/a/u1.bin", originalname := "x.bin", filename := "u1.bin",
    mimetype := "application/octet-stream", size := 2 }

/-- Second upload of the dedup-pair scenario (context "b"). -/
def fileW2 : UploadedFile :=
  { path := "/app/uploads/b/u2.bin", originalname := "x.bin", filename := "u2.bin",
    mimetype := "application/octet-stream", size := 2 }

/-- Options for the two dedup-pair calls: different contexts and uploaders. -/
def optsWa : ProcessOpts := { context := "a", uploadedBy := "alice" }

/-- Options for the second dedup-pair call. -/
def optsWb : ProcessOpts := { context := "b", uploadedBy := "bob" }

/-- A record whose physical path is missing from disk (self-heal scenario). -/
def exDangling : FileRecord :=
  { id := 0, filename := "gone.bin", originalName := "gone.bin",
    filePath := "/app/uploads/a/gone.bin", mimeType := "application/octet-stream",
    fileSize := 2, uploadContext := "a", uploadedBy := "alice", uploadSource := "api",
    isPublic := false, fileHash := [1, 2], deleted := false }

/-- State for the self-heal scenario: the hash of the incoming upload is in
the database but its blob is gone from disk. -/
def stDangling : St :=
  { db := [exDangling], sessions := [], nextId := 1, now := 0,
    fs := [("/app/uploads/a/u1.bin", [1, 2])] }

/-- Decidable equality for `Except`, so concrete runs can be checked by
`decide`. -/
instance {e a : Type} [DecidableEq e] [DecidableEq a] : DecidableEq (Except e a) :=
  fun x y =>
  match x, y with
  | .error a1, .error a2 =>
    if h : a1 = a2 then isTrue (h ▸ rfl) else isFalse (fun hh => h (Except.error.inj hh))
  | .ok a1, .ok a2 =>
    if h : a1 = a2 then isTrue (h ▸ rfl) else isFalse (fun hh => h (Except.ok.inj hh))
  | .error _, .ok _ => isFalse (fun hh => Except.noConfusion hh)
  | .ok _, .error _ => isFalse (fun hh => Except.noConfusion hh)

/-- The session table is keyed by session id (`uploadSessions.set(session.id,
session)` and `initializeSession` maintain this). -/
def WellKeyed (st : St) : Prop :=
  ∀ kv ∈ st.sessions, kv.2.id = kv.1

instance : DecidablePred WellKeyed := fun st =>
  List.decidableBAll _ st.sessions

/-- FileRecord produced by the completed witness session. -/
def recDone : FileRecord :=
  { id := 2, filename := "2.txt", originalName := "a.txt",
    filePath := "/app/uploads/general/2.txt", mimeType := "application/octet-stream",
    fileSize := 1, uploadContext := "general", uploadedBy := "system",
    uploadSource := "api", isPublic := false, fileHash := [7], deleted := false }

/-- A completed (and, in `stExp`, expired) session holding its result. -/
def sessDone : Session :=
  { id := 1, originalFilename := "a.txt", totalSize := 1, totalChunks := 1,
    mimeType := "application/octet-stream", context := "general",
    uploadedBy := "system", uploadSource := "api", createdAt := 0, expiresAt := 5,
    chunks := [(0, { uploaded := true, path := "/app/temp-chunks/1/chunk-0", size := 1 })],
    completed := true, processedFile := some recDone,
    finalFilePath := some "/app/uploads/general/2.txt" }

/-- State whose clock is far past the completed session's expiry. -/
def stExp : St :=
  { db := [recDone], fs := [], sessions := [(1, sessDone)], nextId := 3, now := 100 }

/-- A live one-chunk session ready for assembly. -/
def sessAsm : Session :=
  { id := 1, originalFilename := "a.txt", totalSize := 1, totalChunks := 1,
    mimeType := "application/octet-stream", context := "general",
    uploadedBy := "system", uploadSource := "api", createdAt := 0, expiresAt := 1000,
    chunks := [(0, { uploaded := true, path := "/app/temp-chunks/1/chunk-0", size := 1 })],
    completed := false, processedFile := none, finalFilePath := none }

/-- State in which `sessAsm` can be assembled successfully. -/
def stAsm : St :=
  { db := [], fs := [("/app/temp-chunks/1/chunk-0", [7])],
    sessions := [(1, sessAsm)], nextId := 5, now := 0 }

/-- The FileRecord produced by assembling `sessAsm` in `stAsm`. -/
def recAsm : FileRecord :=
  { id := 6, filename := "5.txt", originalName := "a.txt",
    filePath := "/app/uploads/general/5.txt", mimeType := "application/octet-stream",
    fileSize := 1, uploadContext := "general", uploadedBy := "system",
    uploadSource := "api", isPublic := false, fileHash := [7], deleted := false }

/-- Model of `sessAsm` after successful assembly. -/
def sessAsmDone : Session :=
  { sessAsm with
      completed := true
      processedFile := some recAsm
      finalFilePath := some "/app/uploads/general/5.txt" }

/-- The state produced by assembling `sessAsm` in `stAsm`. -/
def stAsmDone : St :=
  { db := [recAsm], fs := [("/app/uploads/general/5.txt", [7])],
    sessions := [(1, sessAsmDone)], nextId := 7, now := 0 }

/-- A session with no chunks recorded at all (two missing indices). -/
def sessMiss : Session :=
  { id := 1, originalFilename := "a.txt", totalSize := 2, totalChunks := 2,
    mimeType := "application/octet-stream", context := "general",
    uploadedBy := "system", uploadSource := "api", createdAt := 0, expiresAt := 1000,
    chunks := [], completed := false, processedFile := none, finalFilePath := none }

/-- State holding `sessMiss`. -/
def stMiss : St :=
  { db := [], fs := [], sessions := [(1, sessMiss)], nextId := 0, now := 0 }

/-- A session whose single recorded chunk is shorter than the declared
total size (size-mismatch scenario). -/
def sessSize : Session :=
  { id := 1, originalFilename := "a.bin", totalSize := 5, totalChunks := 1,
    mimeType := "application/octet-stream", context := "general",
    uploadedBy := "system", uploadSource := "api", createdAt := 0, expiresAt := 1000,
    chunks := [(0, { uploaded := true, path := "/app/temp-chunks/1/chunk-0", size := 3 })],
    completed := false, processedFile := none, finalFilePath := none }

/-- State holding `sessSize` with its 3-byte chunk on disk. -/
def stSize : St :=
  { db := [], fs := [("/app/temp-chunks/1/chunk-0", [1, 2, 3])],
    sessions := [(1, sessSize)], nextId := 0, now := 0 }

/-- 1KB of compressible text content (the `shouldCompress` threshold). -/
def cText : Bytes := List.replicate 1024 7

/-- First upload of the compression/dedup size scenario. -/
def fileT1 : UploadedFile :=
  { path := "/app/uploads/a/t1.txt", originalname := "t.txt", filename := "t1.txt",
    mimetype := "text/plain", size := 1024 }

/-- Second, byte-identical upload of the compression/dedup size scenario. -/
def fileT2 : UploadedFile :=
  { path := "/app/uploads/b/t2.txt", originalname := "t.txt", filename := "t2.txt",
    mimetype := "text/plain", size := 1024 }

/-- Starting state of the compression/dedup size scenario. -/
def stText : St :=
  { db := [], sessions := [], nextId := 0, now := 0,
    fs := [("/app/uploads/a/t1.txt", cText), ("/app/uploads/b/t2.txt", cText)] }

/-- Record produced by the first (compressed) upload: its stored size is the
1-byte gzip size. -/
def recT1 : FileRecord :=
  { id := 0, filename := "t1.txt", originalName := "t.txt",
    filePath := "/app/uploads/a/t1.txt.gz", mimeType := "text/plain", fileSize := 1,
    uploadContext := "a", uploadedBy := "system", uploadSource := "api",
    isPublic := false, fileHash := cText, deleted := false }

/-- Record produced by the second (deduplicated) upload: same hash and path,
but the stored size is the uploaded 1024 bytes. -/
def recT2 : FileRecord :=
  { id := 1, filename := "t1.txt", originalName := "t.txt",
    filePath := "/app/uploads/a/t1.txt.gz", mimeType := "text/plain", fileSize := 1024,
    uploadContext := "b", uploadedBy := "system", uploadSource := "api",
    isPublic := false, fileHash := cText, deleted := false }

/-- State after the first upload of the compression/dedup size scenario. -/
def stText1 : St :=
  { db := [recT1], sessions := [], nextId := 1, now := 0,
    fs := [("/app/uploads/a/t1.txt.gz", [0]), ("/app/uploads/b/t2.txt", cText)] }

/-- State after the second upload of the compression/dedup size scenario. -/
def stText2 : St :=
  { db := [recT1, recT2], sessions := [], nextId := 2, now := 0,
    fs := [("/app/uploads/a/t1.txt.gz", [0])] }

/-- A live one-chunk session with nothing uploaded yet. -/
def sessOne : Session :=
  { id := 1, originalFilename := "a.txt", totalSize := 1, totalChunks := 1,
    mimeType := "application/octet-stream", context := "general",
    uploadedBy := "system", uploadSource := "api", createdAt := 0, expiresAt := 1000,
    chunks := [], completed := false, processedFile := none, finalFilePath := none }

/-- State holding `sessOne`. -/
def stOne : St :=
  { db := [], fs := [], sessions := [(1, sessOne)], nextId := 5, now := 0 }

/-! ### Generic list lemmas -/

/-- Filtering with a predicate implied by the search predicate does not
change the first hit. -/
theorem find?_filter_of_imp {α : Type} (l : List α) (p f : α → Bool)
    (h : ∀ x, p x = true → f x = true) :
    (l.filter f).find? p = l.find? p := by
  induction l with
  | nil => rfl
  | cons a t ih =>
    by_cases hfa : f a = true
    · rw [List.filter_cons_of_pos hfa]
      by_cases hpa : p a = true
      · rw [List.find?_cons_of_pos _ hpa, List.find?_cons_of_pos _ hpa]
      · rw [List.find?_cons_of_neg _ hpa, List.find?_cons_of_neg _ hpa]
        exact ih
    · have hpa : ¬ p a = true := fun hp => hfa (h a hp)
      rw [List.filter_cons_of_neg hfa, List.find?_cons_of_neg _ hpa]
      exact ih

/-- Erasing one key from an association list does not change lookups of
other keys. -/
theorem find?_key_filter {κ β : Type} [BEq κ] [LawfulBEq κ]
    (l : List (κ × β)) (k q : κ) (h : q ≠ k) :
    (l.filter fun kv => kv.1 != k).find? (fun kv => kv.1 == q) =
      l.find? (fun kv => kv.1 == q) := by
  refine find?_filter_of_imp _ _ _ (fun kv hkv => ?_)
  simp only [beq_iff_eq] at hkv
  simp [hkv, h]

/-- Lookup of an erased key finds nothing. -/
theorem find?_key_filter_self {κ β : Type} [BEq κ] [LawfulBEq κ]
    (l : List (κ × β)) (k : κ) :
    (l.filter fun kv => kv.1 != k).find? (fun kv => kv.1 == k) = none := by
  rw [List.find?_eq_none]
  intro kv hkv
  have := (List.mem_filter.mp hkv).2
  simpa using this

theorem find?_append_of_some {α : Type} {l₁ : List α} {p : α → Bool} {x : α}
    (l₂ : List α) (h : l₁.find? p = some x) : (l₁ ++ l₂).find? p = some x := by
  induction l₁ with
  | nil => simp [List.find?] at h
  | cons a t ih =>
    by_cases hpa : p a = true
    · rw [List.find?_cons_of_pos _ hpa] at h
      simpa [List.cons_append, List.find?_cons_of_pos _ hpa] using h
    · rw [List.find?_cons_of_neg _ hpa] at h
      rw [List.cons_append, List.find?_cons_of_neg _ hpa]
      exact ih h

theorem find?_append_of_none {α : Type} {l₁ : List α} {p : α → Bool}
    (l₂ : List α) (h : l₁.find? p = none) : (l₁ ++ l₂).find? p = l₂.find? p := by
  induction l₁ with
  | nil => rfl
  | cons a t ih =>
    by_cases hpa : p a = true
    · rw [List.find?_cons_of_pos _ hpa] at h; exact absurd h (by simp)
    · rw [List.find?_cons_of_neg _ hpa] at h
      rw [List.cons_append, List.find?_cons_of_neg _ hpa]
      exact ih h

/-- Model of `find?` over `range n` returns the least index satisfying the predicate. -/
theorem find?_range_least {n i : Nat} {p : Nat → Bool} (hi : i < n) (hp : p i = true)
    (hleast : ∀ j, j < i → p j = false) : (List.range n).find? p = some i := by
  induction n with
  | zero => omega
  | succ m ih =>
    rw [List.range_succ]
    rcases Nat.lt_or_ge i m with him | him
    · exact find?_append_of_some _ (ih him)
    · have him' : i = m := by omega
      subst him'
      have hnone : (List.range i).find? p = none := by
        rw [List.find?_eq_none]
        intro j hj
        simp only [List.mem_range] at hj
        simp [hleast j hj]
      rw [find?_append_of_none _ hnone]
      simp [List.find?, hp]

/-! ### Filesystem lemmas -/

namespace FS

theorem read_write (fs : FS) (p : String) (c : Bytes) (q : String) :
    (fs.write p c).read q = if q = p then some c else fs.read q := by
  by_cases h : q = p
  · subst h
    simp [read, write, List.find?_cons_of_pos]
  · unfold read write
    rw [List.find?_cons_of_neg _ (by simpa using Ne.symm h), Otto.find?_key_filter _ _ _ h]
    simp [h]

theorem read_unlink (fs : FS) (p q : String) :
    (fs.unlink p).read q = if q = p then none else fs.read q := by
  by_cases h : q = p
  · subst h
    simp [read, unlink, Otto.find?_key_filter_self]
  · unfold read unlink
    rw [Otto.find?_key_filter _ _ _ h]
    simp [h]

theorem pathExists_eq_isSome_read (fs : FS) (p : String) :
    fs.pathExists p = (fs.read p).isSome := by
  simp [pathExists, read]

theorem read_removeDir (fs : FS) (d q : String) :
    (fs.removeDir d).read q =
      if strStartsWith q d then none else fs.read q := by
  by_cases h : strStartsWith q d = true
  · have hnone : (fs.filter fun kv => !strStartsWith kv.1 d).find?
        (fun kv => kv.1 == q) = none := by
      rw [List.find?_eq_none]
      intro kv hkv
      have h2 := (List.mem_filter.mp hkv).2
      simp only [Bool.not_eq_true'] at h2
      simp only [beq_iff_eq]
      intro hq
      rw [hq, h] at h2
      exact Bool.noConfusion h2
    simp [read, removeDir, hnone, h]
  · unfold read removeDir
    rw [find?_filter_of_imp]
    · simp [h]
    · intro kv hkv
      simp only [beq_iff_eq] at hkv
      simp [hkv, h]

/-- Unlinking a path that is not present leaves the store untouched. -/
theorem unlink_of_read_none {fs : FS} {p : String} (h : fs.read p = none) :
    fs.unlink p = fs := by
  unfold unlink
  rw [List.filter_eq_self]
  intro kv hkv
  unfold read at h
  rw [Option.map_eq_none', List.find?_eq_none] at h
  simpa using h kv hkv

end FS

/-! ### Session / chunk map lemmas -/

theorem getSession_putSession (st : St) (s : Session) (sid : Nat) :
    getSession (putSession st s) sid = if sid = s.id then some s else getSession st sid := by
  by_cases h : sid = s.id
  · subst h
    simp [getSession, putSession, List.find?_cons_of_pos]
  · unfold getSession putSession
    simp only
    rw [List.find?_cons_of_neg _ (by simpa using Ne.symm h), find?_key_filter _ _ _ h]
    simp [h]

theorem getChunk_setChunk (chunks : List (Nat × ChunkRecord)) (i : Nat) (r : ChunkRecord)
    (j : Nat) :
    getChunk (setChunk chunks i r) j = if j = i then some r else getChunk chunks j := by
  by_cases h : j = i
  · subst h
    simp [getChunk, setChunk, List.find?_cons_of_pos]
  · unfold getChunk setChunk
    rw [List.find?_cons_of_neg _ (by simpa using Ne.symm h), find?_key_filter _ _ _ h]
    simp [h]

theorem sessions_cleanupChunks (cfg : Config) (st : St) (sid : Nat) :
    (cleanupChunks cfg st sid).sessions = st.sessions := by
  unfold cleanupChunks
  cases getSession st sid <;> rfl

theorem getSession_cleanupChunks (cfg : Config) (st : St) (sid q : Nat) :
    getSession (cleanupChunks cfg st sid) q = getSession st q := by
  unfold getSession
  rw [sessions_cleanupChunks]

theorem getSession_cleanupSession (cfg : Config) (st : St) (sid q : Nat) :
    getSession (cleanupSession cfg st sid) q =
      if q = sid then none else getSession st q := by
  have hs : (cleanupSession cfg st sid).sessions
      = st.sessions.filter (fun kv => kv.1 != sid) := by
    show ((cleanupChunks cfg st sid).sessions.filter fun kv => kv.1 != sid)
        = st.sessions.filter (fun kv => kv.1 != sid)
    rw [sessions_cleanupChunks]
  by_cases h : q = sid
  · subst h
    unfold getSession
    rw [hs, find?_key_filter_self]
    simp
  · unfold getSession
    rw [hs, find?_key_filter _ _ _ h]
    simp [h]

/-! ### String and path lemmas -/

/-- A string is never equal to itself with a nonempty suffix appended. -/
theorem string_ne_append {s t : String} (ht : t.data ≠ []) : s ≠ s ++ t := by
  intro he
  have hd : s.data = s.data ++ t.data := by
    conv_lhs => rw [he]
    exact String.data_append s t
  have hlen := congrArg List.length hd
  rw [List.length_append] at hlen
  have : t.data.length = 0 := by omega
  exact ht (List.length_eq_zero.mp this)

theorem strStartsWith_slash_append (s : String) : strStartsWith ("/" ++ s) "/" = true := by
  unfold strStartsWith
  rw [String.data_append, List.isPrefixOf_iff_prefix]
  exact List.prefix_append _ _

/-- Model of `path.normalize` keeps absolute paths absolute. -/
theorem pathNormalize_abs {p : String} (h : strStartsWith p "/" = true) :
    strStartsWith (pathNormalize p) "/" = true := by
  unfold pathNormalize
  simp only [h, if_true]
  exact strStartsWith_slash_append _

/-- Model of `FileService.validateFilePath` rejects every absolute path: the
normalized form of an absolute path still starts with `/`, which trips the
`startsWith('/')` guard. -/
theorem validateFilePath_abs_false (cfg : Config) {p : String}
    (h : strStartsWith p "/" = true) : validateFilePath cfg p = false := by
  unfold validateFilePath
  have h2 := pathNormalize_abs h
  simp [h2]

/-! ### FileService branch specifications -/

theorem optimizeImage_spec (env : Env) (fs : FS) (p m : String) (c : Bytes)
    (hread : fs.read p = some c) :
    (∃ c', (optimizeImage env fs p m).2.read p = some c') ∧
      ∀ q, q ≠ p → q ≠ p ++ ".optimized" →
        (optimizeImage env fs p m).2.read q = fs.read q := by
  have hopt : p ≠ p ++ ".optimized" := string_ne_append (by decide)
  by_cases him : (!strStartsWith m "image/" || m == "image/gif") = true
  · have heq : optimizeImage env fs p m = (false, fs) := by
      unfold optimizeImage
      rw [if_pos him]
    rw [heq]
    exact ⟨⟨c, hread⟩, fun q _ _ => rfl⟩
  · rcases hse : env.sharpEncode m c with _ | t
    · have heq : optimizeImage env fs p m = (false, fs) := by
        unfold optimizeImage
        rw [if_neg him, hread]
        simp [hse]
      rw [heq]
      exact ⟨⟨c, hread⟩, fun q _ _ => rfl⟩
    · by_cases hr : 10 * t.length < 9 * c.length
      · have heq : optimizeImage env fs p m =
            (true, (((fs.write (p ++ ".optimized") t).unlink p).unlink
              (p ++ ".optimized")).write p t) := by
          unfold optimizeImage
          rw [if_neg him, hread]
          simp [hse, hr]
        rw [heq]
        constructor
        · exact ⟨t, by rw [FS.read_write]; simp⟩
        · intro q hq1 hq2
          rw [FS.read_write, if_neg hq1, FS.read_unlink, if_neg hq2, FS.read_unlink,
            if_neg hq1, FS.read_write, if_neg hq2]
      · have heq : optimizeImage env fs p m =
            (false, (fs.write (p ++ ".optimized") t).unlink (p ++ ".optimized")) := by
          unfold optimizeImage
          rw [if_neg him, hread]
          simp [hse, hr]
        rw [heq]
        constructor
        · exact ⟨c, by
            rw [FS.read_unlink, if_neg hopt, FS.read_write, if_neg hopt]
            exact hread⟩
        · intro q hq1 hq2
          rw [FS.read_unlink, if_neg hq2, FS.read_write, if_neg hq2]

theorem compressFile_spec (env : Env) (fs : FS) (p m : String) (c : Bytes)
    (hread : fs.read p = some c) :
    ∃ out fs', compressFile env fs p m = some (out, fs') ∧
      (out.compressedPath = p ∨ out.compressedPath = p ++ ".gz") ∧
      (∃ c', fs'.read out.compressedPath = some c') ∧
      ∀ q, q ≠ p → q ≠ p ++ ".gz" → fs'.read q = fs.read q := by
  have hgz : p ≠ p ++ ".gz" := string_ne_append (by decide)
  by_cases hsc : (!shouldCompress m c.length) = true
  · have heq : compressFile env fs p m =
        some ({ compressed := false, originalSize := c.length,
                compressedSize := c.length, compressedPath := p }, fs) := by
      unfold compressFile
      rw [hread]
      simp [hsc]
    exact ⟨_, fs, heq, Or.inl rfl, ⟨c, hread⟩, fun q _ _ => rfl⟩
  · by_cases hr : 10 * (env.gzip c).length > 9 * c.length
    · have heq : compressFile env fs p m =
          some ({ compressed := false, originalSize := c.length,
                  compressedSize := c.length, compressedPath := p },
                (fs.write (p ++ ".gz") (env.gzip c)).unlink (p ++ ".gz")) := by
        unfold compressFile
        rw [hread]
        simp only [hsc, if_false]
        simp [hr]
      refine ⟨_, _, heq, Or.inl rfl, ⟨c, ?_⟩, ?_⟩
      · rw [FS.read_unlink, if_neg hgz, FS.read_write, if_neg hgz]
        exact hread
      · intro q hq1 hq2
        rw [FS.read_unlink, if_neg hq2, FS.read_write, if_neg hq2]
    · have heq : compressFile env fs p m =
          some ({ compressed := true, originalSize := c.length,
                  compressedSize := (env.gzip c).length, compressedPath := p ++ ".gz" },
                (fs.write (p ++ ".gz") (env.gzip c)).unlink p) := by
        unfold compressFile
        rw [hread]
        simp only [hsc, if_false]
        simp [hr]
      refine ⟨_, _, heq, Or.inr rfl, ⟨env.gzip c, ?_⟩, ?_⟩
      · rw [FS.read_unlink, if_neg (Ne.symm hgz), FS.read_write]
        simp
      · intro q hq1 hq2
        rw [FS.read_unlink, if_neg hq1, FS.read_write, if_neg hq2]

theorem generateThumbnail_read (env : Env) (fs : FS) (p : String) (fid : Nat) (q : String)
    (hq : q ≠ getThumbnailPath p fid) :
    (generateThumbnail env fs p fid).read q = fs.read q := by
  unfold generateThumbnail
  rcases h1 : fs.read p with _ | content
  · rfl
  · simp only [h1]
    rcases h2 : env.sharpThumb content with _ | t
    · simp [h2]
    · simp only [h2]
      rw [FS.read_write, if_neg hq]

theorem generateThumbnail_read_isSome (env : Env) (fs : FS) (p : String) (fid : Nat)
    (x : String) (c : Bytes) (h : fs.read x = some c) :
    ∃ c', (generateThumbnail env fs p fid).read x = some c' := by
  by_cases hx : x = getThumbnailPath p fid
  · unfold generateThumbnail
    rcases h1 : fs.read p with _ | content
    · exact ⟨c, h⟩
    · simp only [h1]
      rcases h2 : env.sharpThumb content with _ | t
      · simp only [h2]
        exact ⟨c, h⟩
      · simp only [h2]
        subst hx
        exact ⟨t, by rw [FS.read_write]; simp⟩
  · rw [generateThumbnail_read env fs p fid x hx]
    exact ⟨c, h⟩

/-- Full behaviour of the store-as-new-blob path: it always succeeds given a
readable upload, registers exactly one fresh record whose physical path is
the upload's own (or its `.gz` sibling), leaves that path resolvable, and
touches no other path than the upload, its transform outputs and its
thumbnail. -/
theorem newFileBranch_spec (env : Env) (opts : ProcessOpts) (st : St) (file : UploadedFile)
    (hsh : Bytes) (c : Bytes) (hread : st.fs.read file.path = some c) :
    ∃ r st', newFileBranch env opts st file hsh = (.ok r, st') ∧
      r.id = st.nextId ∧ r.fileHash = hsh ∧ r.deleted = false ∧
      (r.filePath = file.path ∨ r.filePath = file.path ++ ".gz") ∧
      st'.db = st.db ++ [r] ∧ st'.nextId = st.nextId + 1 ∧
      st'.sessions = st.sessions ∧ st'.now = st.now ∧
      (∃ c', st'.fs.read r.filePath = some c') ∧
      ∀ q, q ≠ file.path → q ≠ file.path ++ ".gz" → q ≠ file.path ++ ".optimized" →
        q ≠ getThumbnailPath file.path st.nextId →
        q ≠ getThumbnailPath (file.path ++ ".gz") st.nextId →
        st'.fs.read q = st.fs.read q := by
  by_cases him : strStartsWith file.mimetype "image/" = true
  · obtain ⟨⟨cA, hA⟩, frameA⟩ := optimizeImage_spec env st.fs file.path file.mimetype c hread
    obtain ⟨out, fsB, heqC, hpath, ⟨cB, hB⟩, frameB⟩ :=
      compressFile_spec env (optimizeImage env st.fs file.path file.mimetype).2
        file.path file.mimetype cA hA
    have heqN : newFileBranch env opts st file hsh =
        (.ok { id := st.nextId, filename := file.filename,
               originalName := file.originalname,
               filePath := out.compressedPath, mimeType := file.mimetype,
               fileSize := if out.compressed = true then out.compressedSize else file.size,
               uploadContext := opts.context, uploadedBy := opts.uploadedBy,
               uploadSource := opts.uploadSource,
               isPublic := opts.forcePublic.getD (isPublicContext opts.context),
               fileHash := hsh, deleted := false },
         (fun r0 : FileRecord =>
            { st with db := st.db ++ [r0], nextId := st.nextId + 1,
                      fs := if (opts.generateThumbnails &&
                                strStartsWith file.mimetype "image/") = true
                            then generateThumbnail env fsB out.compressedPath st.nextId
                            else fsB })
           { id := st.nextId, filename := file.filename,
             originalName := file.originalname,
             filePath := out.compressedPath, mimeType := file.mimetype,
             fileSize := if out.compressed = true then out.compressedSize else file.size,
             uploadContext := opts.context, uploadedBy := opts.uploadedBy,
             uploadSource := opts.uploadSource,
             isPublic := opts.forcePublic.getD (isPublicContext opts.context),
             fileHash := hsh, deleted := false }) := by
      simp only [newFileBranch, him, if_true, heqC]
    refine ⟨_, _, heqN, rfl, rfl, rfl, hpath, rfl, rfl, rfl, rfl, ?_, ?_⟩
    · by_cases hcond : (opts.generateThumbnails && strStartsWith file.mimetype "image/") = true
      · simp only [hcond, if_true]
        exact generateThumbnail_read_isSome env fsB out.compressedPath st.nextId
          out.compressedPath cB hB
      · simp only [hcond, if_neg, Bool.false_eq_true, if_false]
        exact ⟨cB, hB⟩
    · intro q hq1 hq2 hq3 hq4 hq5
      have hstep : (if (opts.generateThumbnails && strStartsWith file.mimetype "image/") = true
           then generateThumbnail env fsB out.compressedPath st.nextId else fsB).read q
            = fsB.read q := by
        by_cases hcond : (opts.generateThumbnails && strStartsWith file.mimetype "image/") = true
        · rw [if_pos hcond]
          refine generateThumbnail_read env fsB out.compressedPath st.nextId q ?_
          rcases hpath with hp | hp <;> rw [hp] <;> assumption
        · rw [if_neg hcond]
      calc (if (opts.generateThumbnails && strStartsWith file.mimetype "image/") = true
           then generateThumbnail env fsB out.compressedPath st.nextId else fsB).read q
            = fsB.read q := hstep
        _ = (optimizeImage env st.fs file.path file.mimetype).2.read q := frameB q hq1 hq2
        _ = st.fs.read q := frameA q hq1 hq3
  · obtain ⟨out, fsB, heqC, hpath, ⟨cB, hB⟩, frameB⟩ :=
      compressFile_spec env st.fs file.path file.mimetype c hread
    have him' : strStartsWith file.mimetype "image/" = false := by
      simpa using him
    have heqN : newFileBranch env opts st file hsh =
        (.ok { id := st.nextId, filename := file.filename,
               originalName := file.originalname,
               filePath := out.compressedPath, mimeType := file.mimetype,
               fileSize := if out.compressed = true then out.compressedSize else file.size,
               uploadContext := opts.context, uploadedBy := opts.uploadedBy,
               uploadSource := opts.uploadSource,
               isPublic := opts.forcePublic.getD (isPublicContext opts.context),
               fileHash := hsh, deleted := false },
         (fun r0 : FileRecord =>
            { st with db := st.db ++ [r0], nextId := st.nextId + 1, fs := fsB })
           { id := st.nextId, filename := file.filename,
             originalName := file.originalname,
             filePath := out.compressedPath, mimeType := file.mimetype,
             fileSize := if out.compressed = true then out.compressedSize else file.size,
             uploadContext := opts.context, uploadedBy := opts.uploadedBy,
             uploadSource := opts.uploadSource,
             isPublic := opts.forcePublic.getD (isPublicContext opts.context),
             fileHash := hsh, deleted := false }) := by
      simp only [newFileBranch, him', Bool.false_eq_true, if_false, heqC, Bool.and_false]
    refine ⟨_, _, heqN, rfl, rfl, rfl, hpath, rfl, rfl, rfl, rfl, ⟨cB, hB⟩, ?_⟩
    intro q hq1 hq2 hq3 hq4 hq5
    exact frameB q hq1 hq2

/-- Dedup hit with the blob present on disk: a fresh record is created
pointing at the existing blob, the uploaded temporary is removed, and no
byte is written. -/
theorem processOneFile_dedup (env : Env) (opts : ProcessOpts) (st : St) (file : UploadedFile)
    (c : Bytes) (ex : FileRecord) (hread : st.fs.read file.path = some c)
    (hfind : findByHash st.db (sha256 c) = some ex)
    (hex : st.fs.pathExists ex.filePath = true) :
    ∃ r, processOneFile env opts st file =
        (.ok r, { st with db := st.db ++ [r], nextId := st.nextId + 1,
                          fs := st.fs.unlink file.path }) ∧
      r.id = st.nextId ∧ r.filename = ex.filename ∧ r.filePath = ex.filePath ∧
      r.fileSize = file.size ∧ r.fileHash = sha256 c ∧ r.deleted = false ∧
      r.uploadContext = opts.context ∧ r.uploadedBy = opts.uploadedBy := by
  refine ⟨{ id := st.nextId, filename := ex.filename, originalName := file.originalname,
            filePath := ex.filePath, mimeType := file.mimetype, fileSize := file.size,
            uploadContext := opts.context, uploadedBy := opts.uploadedBy,
            uploadSource := opts.uploadSource,
            isPublic := opts.forcePublic.getD (isPublicContext opts.context),
            fileHash := sha256 c, deleted := false },
          ?_, rfl, rfl, rfl, rfl, rfl, rfl, rfl, rfl⟩
  simp only [processOneFile, hread, hfind, hex, if_true]

/-- No usable dedup hit (no hash match): fall through to the new-blob path. -/
theorem processOneFile_toNew_none (env : Env) (opts : ProcessOpts) (st : St)
    (file : UploadedFile) (c : Bytes) (hread : st.fs.read file.path = some c)
    (hfind : findByHash st.db (sha256 c) = none) :
    processOneFile env opts st file = newFileBranch env opts st file (sha256 c) := by
  simp only [processOneFile, hread, hfind]

/-- Hash match whose stored physical path is missing from disk: treated as
not found, fall through to the new-blob path (self-healing). -/
theorem processOneFile_toNew_dangling (env : Env) (opts : ProcessOpts) (st : St)
    (file : UploadedFile) (c : Bytes) (ex : FileRecord)
    (hread : st.fs.read file.path = some c)
    (hfind : findByHash st.db (sha256 c) = some ex)
    (hex : st.fs.pathExists ex.filePath = false) :
    processOneFile env opts st file = newFileBranch env opts st file (sha256 c) := by
  simp only [processOneFile, hread, hfind, hex, Bool.false_eq_true, if_false]


/-! ### Claim theorems -/

/-- C1: for every pair of uploads with byte-identical content (possibly
under different contexts/uploaders), the dedup resolver produces two
distinct FileRecords (distinct IDs) with equal content hash and equal
physical path, writes no new bytes to the blob store on the second call
(the second call's only filesystem effect is removing the second upload's
temporary file), and deletes the second upload's temporary file. Stated
over any starting state in which the metadata and the disk agree (every
live record's path exists) and the two temporary upload paths are fresh. -/
theorem dedup_identical_uploads (env : Env) (st : St) (c : Bytes)
    (f1 f2 : UploadedFile) (o1 o2 : ProcessOpts)
    (hc1 : st.fs.read f1.path = some c) (hc2 : st.fs.read f2.path = some c)
    (hconsist : ∀ r ∈ st.db, r.deleted = false → st.fs.pathExists r.filePath = true)
    (hfresh : ∀ r ∈ st.db, r.deleted = false → r.filePath ≠ f1.path ∧ r.filePath ≠ f2.path)
    (h21 : f2.path ≠ f1.path)
    (h2gz : f2.path ≠ f1.path ++ ".gz")
    (h2opt : f2.path ≠ f1.path ++ ".optimized")
    (h2t1 : f2.path ≠ getThumbnailPath f1.path st.nextId)
    (h2t2 : f2.path ≠ getThumbnailPath (f1.path ++ ".gz") st.nextId) :
    ∃ r1 st1 r2 st2,
      processOneFile env o1 st f1 = (.ok r1, st1) ∧
      processOneFile env o2 st1 f2 = (.ok r2, st2) ∧
      r1.id ≠ r2.id ∧ r1.fileHash = r2.fileHash ∧ r1.filePath = r2.filePath ∧
      st2.fs = st1.fs.unlink f2.path ∧
      st2.db = st1.db ++ [r2] := by
  rcases hfind : findByHash st.db (sha256 c) with _ | ex
  · -- no pre-existing record with this hash: the first call stores a new blob
    obtain ⟨r1, st1, heq1, hid1, hhash1, hdel1, hpath1, hdb1, hnext1, hsess1, hnow1,
        ⟨c1, hread1⟩, frame1⟩ := newFileBranch_spec env o1 st f1 (sha256 c) c hc1
    have hp1 : processOneFile env o1 st f1 = (.ok r1, st1) := by
      rw [processOneFile_toNew_none env o1 st f1 c hc1 hfind]
      exact heq1
    have hread2 : st1.fs.read f2.path = some c := by
      rw [frame1 f2.path h21 h2gz h2opt h2t1 h2t2]
      exact hc2
    have hfind2 : findByHash st1.db (sha256 c) = some r1 := by
      unfold findByHash at hfind ⊢
      rw [hdb1, find?_append_of_none _ hfind]
      have hpred : (!r1.deleted && r1.fileHash == sha256 c) = true := by
        simp [hdel1, hhash1]
      simp [List.find?, hpred]
    have hex2 : st1.fs.pathExists r1.filePath = true := by
      rw [FS.pathExists_eq_isSome_read, hread1]
      rfl
    obtain ⟨r2, heq2, hid2, hfn2, hfp2, hsz2, hhash2, hdel2, hctx2, hub2⟩ :=
      processOneFile_dedup env o2 st1 f2 c r1 hread2 hfind2 hex2
    refine ⟨r1, st1, r2, _, hp1, heq2, ?_, ?_, ?_, rfl, rfl⟩
    · rw [hid1, hid2, hnext1]
      omega
    · rw [hhash1, hhash2]
    · rw [hfp2]
  · -- a live record with this hash exists; by consistency its blob is on disk
    have hmem := List.mem_of_find?_eq_some hfind
    have hpred := List.find?_some hfind
    simp only [Bool.and_eq_true, Bool.not_eq_true', beq_iff_eq] at hpred
    have hexd : st.fs.pathExists ex.filePath = true := hconsist ex hmem hpred.1
    obtain ⟨r1, heq1, hid1, hfn1, hfp1, hsz1, hhash1, hdel1, hctx1, hub1⟩ :=
      processOneFile_dedup env o1 st f1 c ex hc1 hfind hexd
    have hexne : ex.filePath ≠ f1.path ∧ ex.filePath ≠ f2.path :=
      hfresh ex hmem hpred.1
    have hread2 : (st.fs.unlink f1.path).read f2.path = some c := by
      rw [FS.read_unlink, if_neg h21]
      exact hc2
    have hfind2 : findByHash (st.db ++ [r1]) (sha256 c) = some ex := by
      unfold findByHash at hfind ⊢
      exact find?_append_of_some _ hfind
    have hex2 : (st.fs.unlink f1.path).pathExists ex.filePath = true := by
      rw [FS.pathExists_eq_isSome_read, FS.read_unlink, if_neg hexne.1,
        ← FS.pathExists_eq_isSome_read]
      exact hexd
    obtain ⟨r2, heq2, hid2, hfn2, hfp2, hsz2, hhash2, hdel2, hctx2, hub2⟩ :=
      processOneFile_dedup env o2
        { st with db := st.db ++ [r1], nextId := st.nextId + 1,
                  fs := st.fs.unlink f1.path } f2 c ex hread2 hfind2 hex2
    refine ⟨r1, _, r2, _, heq1, heq2, ?_, ?_, ?_, rfl, rfl⟩
    · rw [hid1, hid2]
      show st.nextId ≠ st.nextId + 1
      omega
    · rw [hhash1, hhash2]
    · rw [hfp1, hfp2]

/-- C1 witness: the general theorem applied to two byte-identical 2-byte
uploads under contexts "a" and "b" over an empty database. -/
theorem dedup_identical_uploads_witness :
    ∃ r1 st1 r2 st2,
      processOneFile envW optsWa stDedup fileW1 = (.ok r1, st1) ∧
      processOneFile envW optsWb st1 fileW2 = (.ok r2, st2) ∧
      r1.id ≠ r2.id ∧ r1.fileHash = r2.fileHash ∧ r1.filePath = r2.filePath ∧
      st2.fs = st1.fs.unlink fileW2.path ∧
      st2.db = st1.db ++ [r2] :=
  dedup_identical_uploads envW stDedup [1, 2] fileW1 fileW2 optsWa optsWb
    rfl rfl (by simp [stDedup]) (by simp [stDedup]) (by decide) (by decide) (by decide)
    (by decide) (by decide)

/-- C8: when the content hash of an upload matches an existing record whose
physical path is missing from disk, the resolver treats the lookup as
not-found and stores the upload as a new blob: the call succeeds, a record
with a fresh ID is appended, its physical path differs from the dangling
path and is resolvable on disk, and it carries the same content hash. -/
theorem dangling_dedup_self_heal (env : Env) (opts : ProcessOpts) (st : St)
    (file : UploadedFile) (c : Bytes) (ex : FileRecord)
    (hread : st.fs.read file.path = some c)
    (hfind : findByHash st.db (sha256 c) = some ex)
    (hex : st.fs.pathExists ex.filePath = false)
    (hgz : file.path ++ ".gz" ≠ ex.filePath)
    (hidfresh : ∀ r ∈ st.db, r.id < st.nextId) :
    ∃ r st', processOneFile env opts st file = (.ok r, st') ∧
      r.filePath ≠ ex.filePath ∧
      (∀ r0 ∈ st.db, r0.id ≠ r.id) ∧
      st'.db = st.db ++ [r] ∧
      st'.fs.pathExists r.filePath = true ∧
      r.fileHash = ex.fileHash := by
  obtain ⟨r, st', heq, hid, hhash, hdel, hpath, hdb, hnext, hsess, hnow,
      ⟨c', hread'⟩, frame⟩ := newFileBranch_spec env opts st file (sha256 c) c hread
  have hp : processOneFile env opts st file = (.ok r, st') := by
    rw [processOneFile_toNew_dangling env opts st file c ex hread hfind hex]
    exact heq
  have hpred := List.find?_some hfind
  simp only [Bool.and_eq_true, Bool.not_eq_true', beq_iff_eq] at hpred
  have hne1 : file.path ≠ ex.filePath := by
    intro h
    rw [← h, FS.pathExists_eq_isSome_read, hread] at hex
    exact Bool.noConfusion hex
  refine ⟨r, st', hp, ?_, ?_, hdb, ?_, ?_⟩
  · rcases hpath with hp' | hp' <;> rw [hp']
    · exact hne1
    · exact hgz
  · intro r0 hr0
    have := hidfresh r0 hr0
    rw [hid]
    omega
  · rw [FS.pathExists_eq_isSome_read, hread']
    rfl
  · rw [hhash, hpred.2]

/-- C8 witness: a dangling record with the upload's hash is in the
database; the upload is re-stored as a new blob. -/
theorem dangling_dedup_self_heal_witness :
    ∃ r st', processOneFile envW { context := "a" } stDangling fileW1 = (.ok r, st') ∧
      r.filePath ≠ exDangling.filePath ∧
      (∀ r0 ∈ stDangling.db, r0.id ≠ r.id) ∧
      st'.db = stDangling.db ++ [r] ∧
      st'.fs.pathExists r.filePath = true ∧
      r.fileHash = exDangling.fileHash :=
  dangling_dedup_self_heal envW { context := "a" } stDangling fileW1 [1, 2] exDangling
    rfl rfl rfl (by decide) (by simp [stDangling, exDangling])


/-! ### Assembly lemmas -/

theorem getSession_id {st : St} {sid : Nat} {s : Session} (hwk : WellKeyed st)
    (hs : getSession st sid = some s) : s.id = sid := by
  unfold getSession at hs
  rw [Option.map_eq_some'] at hs
  obtain ⟨kv, hfind, hkv⟩ := hs
  have hmem := List.mem_of_find?_eq_some hfind
  have hpred := List.find?_some hfind
  simp only [beq_iff_eq] at hpred
  have hk := hwk kv hmem
  rw [← hkv, hk, hpred]

theorem wellKeyed_putSession {st : St} (hwk : WellKeyed st) (s : Session) :
    WellKeyed (putSession st s) := by
  intro kv hkv
  unfold putSession at hkv
  simp only at hkv
  rcases List.mem_cons.mp hkv with h1 | h2
  · rw [h1]
  · exact hwk kv (List.mem_of_mem_filter h2)

/-- A successful `assembleFile` leaves the session in the table, marked
completed and holding the returned FileRecord. -/
theorem assemble_ok_completed (cfg : Config) (env : Env) (st : St) (sid : Nat)
    (f : FileRecord) (st' : St) (hwk : WellKeyed st)
    (h : assembleFile cfg env st sid = (.ok f, st')) :
    ∃ s2, getSession st' sid = some s2 ∧ s2.completed = true ∧
      s2.processedFile = some f := by
  rcases hs : getSession st sid with _ | s
  · simp only [assembleFile, hs] at h
    simp at h
  · simp only [assembleFile, hs] at h
    by_cases hc : s.completed = true
    · rw [if_pos hc] at h
      rcases hpf : s.processedFile with _ | f0
      · rw [hpf] at h
        simp at h
      · rw [hpf] at h
        simp only [Prod.mk.injEq, Except.ok.injEq] at h
        obtain ⟨hf, hst⟩ := h
        refine ⟨s, ?_, hc, ?_⟩
        · rw [← hst]
          exact hs
        · rw [hpf, hf]
    · rw [if_neg hc] at h
      rcases hfm : firstMissing s with _ | i
      · simp only [hfm] at h
        rcases hrc : readChunks st.fs s with _ | content
        · simp only [hrc] at h
          simp at h
        · simp only [hrc] at h
          by_cases hlen : content.length ≠ s.totalSize
          · rw [if_pos hlen] at h
            simp at h
          · rw [if_neg hlen] at h
            rcases hpa : processAssembledFile cfg env
                { st with fs := st.fs.write (assembleTempPath cfg s) content } s
                (assembleTempPath cfg s) with ⟨res, st2⟩
            rw [hpa] at h
            rcases res with e | pf
            · simp at h
            · simp only [Prod.mk.injEq, Except.ok.injEq] at h
              obtain ⟨hpf, hst'⟩ := h
              have hsid : s.id = sid := getSession_id hwk hs
              refine ⟨{ s with
                          completed := true
                          processedFile := some pf
                          finalFilePath := some pf.filePath }, ?_, rfl, ?_⟩
              · rw [← hst', getSession_cleanupChunks, getSession_putSession]
                rw [if_pos hsid.symm]
              · simp only [Option.some.injEq]
                exact hpf
      · simp only [hfm] at h
        simp at h

/-- C3: `assemble` is idempotent — if a call returned a FileRecord, calling
it again on the resulting state returns the identical record and leaves the
state (database, filesystem, session table) completely unchanged: no
additional disk write and no second registration. -/
theorem assemble_idempotent (cfg : Config) (env : Env) (st : St) (sid : Nat)
    (f : FileRecord) (st' : St) (hwk : WellKeyed st)
    (h : assembleFile cfg env st sid = (.ok f, st')) :
    assembleFile cfg env st' sid = (.ok f, st') := by
  obtain ⟨s2, hs2, hc2, hpf2⟩ := assemble_ok_completed cfg env st sid f st' hwk h
  simp only [assembleFile, hs2, hc2, if_true, hpf2]

/-- C3 witness: a concrete one-chunk session assembles successfully and the
second call reproduces the identical record and state. -/
theorem assemble_idempotent_witness :
    assembleFile cfgW envW stAsm 1 = (.ok recAsm, stAsmDone) ∧
    assembleFile cfgW envW stAsmDone 1 = (.ok recAsm, stAsmDone) := by
  have h1 : assembleFile cfgW envW stAsm 1 = (.ok recAsm, stAsmDone) := by decide
  exact ⟨h1, assemble_idempotent cfgW envW stAsm 1 recAsm stAsmDone (by decide) h1⟩

/-- C2 (amended): an expired session is lazily purged and reported absent
by `status` and `putChunk` (whose error the controller maps to
`404 SESSION_NOT_FOUND`), but `assemble` performs no expiry check: a
still-present expired completed session is served normally. -/
theorem lazy_expiry_status_putChunk (cfg : Config) (env : Env) (st : St) (sid : Nat)
    (s : Session) (hs : getSession st sid = some s)
    (hexp : isSessionExpired st s = true) :
    getSessionStatus cfg st sid = (none, cleanupSession cfg st sid) ∧
    getSession (cleanupSession cfg st sid) sid = none ∧
    (∀ idx buf sz dok, uploadChunk cfg env st sid idx buf sz dok =
      (.error .sessionExpired, cleanupSession cfg st sid)) ∧
    chunkUploadHttpCode .sessionExpired = (404, "SESSION_NOT_FOUND") ∧
    ∀ f, s.completed = true → s.processedFile = some f →
      assembleFile cfg env st sid = (.ok f, st) := by
  refine ⟨?_, ?_, ?_, by decide, ?_⟩
  · simp only [getSessionStatus, hs, hexp, if_true]
  · rw [getSession_cleanupSession, if_pos rfl]
  · intro idx buf sz dok
    simp only [uploadChunk, hs, hexp, if_true]
  · intro f hc hpf
    simp only [assembleFile, hs, hc, if_true, hpf]

/-- C2 witness: the amended behaviour at the concrete expired completed
session `sessDone`. -/
theorem lazy_expiry_status_putChunk_witness :
    getSessionStatus cfgW stExp 1 = (none, cleanupSession cfgW stExp 1) ∧
    getSession (cleanupSession cfgW stExp 1) 1 = none ∧
    (∀ idx buf sz dok, uploadChunk cfgW envW stExp 1 idx buf sz dok =
      (.error .sessionExpired, cleanupSession cfgW stExp 1)) ∧
    chunkUploadHttpCode .sessionExpired = (404, "SESSION_NOT_FOUND") ∧
    ∀ f, sessDone.completed = true → sessDone.processedFile = some f →
      assembleFile cfgW envW stExp 1 = (.ok f, stExp) :=
  lazy_expiry_status_putChunk cfgW envW stExp 1 sessDone rfl rfl

/-- C2 counterexample: the claim says `assemble` reports `SessionNotFound`
on every expired session after purging it; on the expired completed session
`sessDone` (still in the table), `assemble` instead returns the stored
FileRecord and purges nothing. -/
theorem assemble_skips_expiry_check :
    getSession stExp 1 = some sessDone ∧
    isSessionExpired stExp sessDone = true ∧
    assembleFile cfgW envW stExp 1 = (.ok recDone, stExp) :=
  ⟨rfl, rfl, rfl⟩



/-- C5 (amended): for a non-completed session with at least one missing
index, `assemble` fails with a MissingChunk error naming the smallest
missing index (the source raises at the first gap of its verification loop,
not with the full list — that list is what `status` reports), and performs
no mutation at all: the returned state is the input state. -/
theorem assemble_missing_first_index (cfg : Config) (env : Env) (st : St) (sid : Nat)
    (s : Session) (i : Nat) (hs : getSession st sid = some s)
    (hc : s.completed = false) (hi : i < s.totalChunks)
    (hmiss : chunkUploaded s i = false)
    (hleast : ∀ j, j < i → chunkUploaded s j = true) :
    assembleFile cfg env st sid = (.error (.missingChunk i), st) ∧
    i ∈ missingChunksOf s := by
  have hfm : firstMissing s = some i := by
    refine find?_range_least hi ?_ ?_
    · simp [hmiss]
    · intro j hj
      simp [hleast j hj]
  constructor
  · simp only [assembleFile, hs, hc, Bool.false_eq_true, if_false, hfm]
  · unfold missingChunksOf
    rw [List.mem_filter]
    exact ⟨List.mem_range.mpr hi, by simp [hmiss]⟩

/-- C5 witness: the amended behaviour on a session with no chunks. -/
theorem assemble_missing_first_index_witness :
    assembleFile cfgW envW stMiss 1 = (.error (.missingChunk 0), stMiss) ∧
    0 ∈ missingChunksOf sessMiss :=
  assemble_missing_first_index cfgW envW stMiss 1 sessMiss 0 rfl rfl (by decide) rfl
    (fun j hj => absurd hj (Nat.not_lt_zero j))

/-- C5 counterexample: with chunks 0 and 1 both missing, the source's error
carries only the first missing index 0, not the full list `[0, 1]` that the
claim says the failure carries. -/
theorem missing_chunks_error_first_only :
    assembleFile cfgW envW stMiss 1 = (.error (.missingChunk 0), stMiss) ∧
    missingChunksOf sessMiss = [0, 1] := by
  exact ⟨by decide, by decide⟩

/-- C9: if the disk write of a chunk fails, `putChunk` surfaces a storage
error and leaves the whole state — in particular the session's ChunkRecord
at that index — exactly as it was, so later status queries stay accurate. -/
theorem putChunk_failed_write_no_mutation (cfg : Config) (env : Env) (st : St)
    (sid : Nat) (s : Session) (idx : Nat) (buf : Bytes) (sz : Nat)
    (hs : getSession st sid = some s) (hexp : isSessionExpired st s = false)
    (hidx : idx < s.totalChunks) :
    uploadChunk cfg env st sid idx buf sz false = (.error .storageFailure, st) ∧
    ∃ s', getSession (uploadChunk cfg env st sid idx buf sz false).2 sid = some s' ∧
      getChunk s'.chunks idx = getChunk s.chunks idx := by
  have h1 : uploadChunk cfg env st sid idx buf sz false = (.error .storageFailure, st) := by
    simp only [uploadChunk, hs, hexp, Bool.false_eq_true, if_false]
    rw [if_neg (by omega)]
    simp
  refine ⟨h1, s, ?_, rfl⟩
  rw [h1]
  exact hs

/-- C9 witness: a failed chunk write on the live session `sessAsm`. -/
theorem putChunk_failed_write_no_mutation_witness :
    uploadChunk cfgW envW stAsm 1 0 [9] 1 false = (.error .storageFailure, stAsm) ∧
    ∃ s', getSession (uploadChunk cfgW envW stAsm 1 0 [9] 1 false).2 1 = some s' ∧
      getChunk s'.chunks 0 = getChunk sessAsm.chunks 0 :=
  putChunk_failed_write_no_mutation cfgW envW stAsm 1 sessAsm 0 [9] 1 rfl rfl
    (by decide)


/-- The dedup resolver never fails on a readable upload: every branch
produces a FileRecord. -/
theorem processOneFile_ok (env : Env) (opts : ProcessOpts) (st : St)
    (file : UploadedFile) (c : Bytes) (hread : st.fs.read file.path = some c) :
    ∃ r st', processOneFile env opts st file = (.ok r, st') := by
  rcases hf : findByHash st.db (sha256 c) with _ | ex
  · obtain ⟨r, st', heq, -⟩ := newFileBranch_spec env opts st file (sha256 c) c hread
    refine ⟨r, st', ?_⟩
    rw [processOneFile_toNew_none env opts st file c hread hf]
    exact heq
  · by_cases hex : st.fs.pathExists ex.filePath = true
    · obtain ⟨r, heq, -⟩ := processOneFile_dedup env opts st file c ex hread hf hex
      exact ⟨r, _, heq⟩
    · have hex' : st.fs.pathExists ex.filePath = false := by
        simpa using hex
      obtain ⟨r, st', heq, -⟩ := newFileBranch_spec env opts st file (sha256 c) c hread
      refine ⟨r, st', ?_⟩
      rw [processOneFile_toNew_dangling env opts st file c ex hread hf hex']
      exact heq

theorem processUploadedFiles_singleton (env : Env) (opts : ProcessOpts) (st : St)
    (f : UploadedFile) (r : FileRecord) (st' : St)
    (h : processOneFile env opts st f = (.ok r, st')) :
    processUploadedFiles env opts st [f] = (.ok [r], st') := by
  simp only [processUploadedFiles, h]

/-- Model of `processAssembledFile` succeeds whenever the assembled temporary file is
readable. -/
theorem processAssembledFile_ok (cfg : Config) (env : Env) (st : St) (session : Session)
    (temp : String) (c : Bytes) (hread : st.fs.read temp = some c) :
    ∃ r st2, processAssembledFile cfg env st session temp = (.ok r, st2) := by
  have hreadFinal :
      ((st.fs.unlink temp).write
        (cfg.uploadDir ++ "/" ++ session.context ++ "/"
          ++ (toString st.nextId ++ strToLower (extname session.originalFilename))) c).read
        (cfg.uploadDir ++ "/" ++ session.context ++ "/"
          ++ (toString st.nextId ++ strToLower (extname session.originalFilename)))
        = some c := by
    rw [FS.read_write, if_pos rfl]
  obtain ⟨r, st', hO⟩ := processOneFile_ok env
    (ProcessOpts.mk session.context session.uploadedBy session.uploadSource false none)
    (St.mk st.db
      ((st.fs.unlink temp).write
        (cfg.uploadDir ++ "/" ++ session.context ++ "/"
          ++ (toString st.nextId ++ strToLower (extname session.originalFilename))) c)
      st.sessions (st.nextId + 1) st.now)
    (UploadedFile.mk
      (cfg.uploadDir ++ "/" ++ session.context ++ "/"
        ++ (toString st.nextId ++ strToLower (extname session.originalFilename)))
      session.originalFilename
      (toString st.nextId ++ strToLower (extname session.originalFilename))
      session.mimeType session.totalSize)
    c hreadFinal
  refine ⟨r, st', ?_⟩
  simp only [processAssembledFile, hread]
  rw [processUploadedFiles_singleton _ _ _ _ _ _ hO]

/-- C4 (amended): the controller's `totalChunks` is exactly
`ceil(totalSize / chunkSize)` (characterised as the least chunk count whose
capacity covers `totalSize`), and for a non-completed session assembly
succeeds iff every index in `[0, totalChunks)` has an uploaded ChunkRecord
AND the concatenated chunk bytes have exactly the declared `totalSize`
(a size mismatch fails even with all chunks present). -/
theorem totalChunks_ceil_and_assembly_iff :
    (∀ (cfg : Config) (totalSize : Nat), 0 < cfg.chunkSize →
      totalSize ≤ controllerTotalChunks cfg totalSize * cfg.chunkSize ∧
      ∀ j, totalSize ≤ j * cfg.chunkSize → controllerTotalChunks cfg totalSize ≤ j) ∧
    (∀ (cfg : Config) (env : Env) (st : St) (sid : Nat) (s : Session),
      getSession st sid = some s → s.completed = false →
      ((∃ f st', assembleFile cfg env st sid = (.ok f, st')) ↔
        ((∀ i, i < s.totalChunks → chunkUploaded s i = true) ∧
         ∃ content, readChunks st.fs s = some content ∧
           content.length = s.totalSize))) := by
  constructor
  · intro cfg n hc
    constructor
    · rcases Nat.eq_zero_or_pos n with hn | hn
      · subst hn
        simp
      · by_contra hlt
        push_neg at hlt
        obtain ⟨b, hb⟩ : ∃ b, controllerTotalChunks cfg n * cfg.chunkSize = b := ⟨_, rfl⟩
        rw [hb] at hlt
        have h1 : (controllerTotalChunks cfg n + 1) * cfg.chunkSize ≤ n + cfg.chunkSize - 1 := by
          rw [Nat.succ_mul, hb]
          omega
        have h2 := (Nat.le_div_iff_mul_le hc).mpr h1
        unfold controllerTotalChunks at h2
        omega
    · intro j hj
      by_contra hlt
      push_neg at hlt
      have h1 : j + 1 ≤ controllerTotalChunks cfg n := hlt
      have h2 := (Nat.le_div_iff_mul_le hc).mp h1
      rw [Nat.succ_mul] at h2
      obtain ⟨a, ha⟩ : ∃ a, j * cfg.chunkSize = a := ⟨_, rfl⟩
      rw [ha] at h2 hj
      omega
  · intro cfg env st sid s hs hc
    constructor
    · rintro ⟨f, st', h⟩
      rcases hfm : firstMissing s with _ | i
      · rcases hrc : readChunks st.fs s with _ | content
        · simp only [assembleFile, hs, hc, Bool.false_eq_true, if_false, hfm, hrc] at h
          simp at h
        · by_cases hlen : content.length = s.totalSize
          · refine ⟨?_, content, rfl, hlen⟩
            have hall := List.find?_eq_none.mp hfm
            intro i hi
            have h2 := hall i (List.mem_range.mpr hi)
            simpa using h2
          · simp only [assembleFile, hs, hc, Bool.false_eq_true, if_false, hfm, hrc,
              if_pos hlen] at h
            simp at h
      · simp only [assembleFile, hs, hc, Bool.false_eq_true, if_false, hfm] at h
        simp at h
    · rintro ⟨hall, content, hrc, hlen⟩
      have hfm : firstMissing s = none := by
        rw [firstMissing, List.find?_eq_none]
        intro j hj
        simp [hall j (List.mem_range.mp hj)]
      have hreadTemp :
          (st.fs.write (assembleTempPath cfg s) content).read (assembleTempPath cfg s)
            = some content := by
        rw [FS.read_write, if_pos rfl]
      obtain ⟨r, st2, hpa⟩ := processAssembledFile_ok cfg env
        { st with fs := st.fs.write (assembleTempPath cfg s) content } s
        (assembleTempPath cfg s) content hreadTemp
      refine ⟨r, cleanupChunks cfg (putSession st2
        { s with
            completed := true
            finalFilePath := some r.filePath
            processedFile := some r }) sid, ?_⟩
      simp only [assembleFile, hs, hc, Bool.false_eq_true, if_false, hfm, hrc,
        if_neg (by omega : ¬ content.length ≠ s.totalSize), hpa]

/-- C4 witness: `totalChunks` for the spec's 30MB/10MB scenario, and the
assembly iff on the concrete one-chunk session `sessAsm`. -/
theorem totalChunks_ceil_and_assembly_iff_witness :
    (30000000 ≤ controllerTotalChunks { chunkSize := 10000000 } 30000000 * 10000000 ∧
      ∀ j, 30000000 ≤ j * 10000000 →
        controllerTotalChunks { chunkSize := 10000000 } 30000000 ≤ j) ∧
    ((∃ f st', assembleFile cfgW envW stAsm 1 = (.ok f, st')) ↔
      ((∀ i, i < sessAsm.totalChunks → chunkUploaded sessAsm i = true) ∧
       ∃ content, readChunks stAsm.fs sessAsm = some content ∧
         content.length = sessAsm.totalSize)) :=
  ⟨totalChunks_ceil_and_assembly_iff.1 { chunkSize := 10000000 } 30000000 (by decide),
   totalChunks_ceil_and_assembly_iff.2 cfgW envW stAsm 1 sessAsm rfl rfl⟩

/-- C4 counterexample: the claim's "assembly succeeds iff every index has a
ChunkRecord" is false on `sessSize`: every index in `[0, totalChunks)` is
recorded, yet assembly fails with a size mismatch (3 assembled bytes
against a declared totalSize of 5). -/
theorem assembly_success_needs_size_match :
    (∀ i, i < sessSize.totalChunks → chunkUploaded sessSize i = true) ∧
    assembleFile cfgW envW stSize 1 = (.error (.sizeMismatch 3 5), stSize) := by
  exact ⟨by decide, by decide⟩


/-- C6: (1) the assembly loop concatenates the chunks in strict index order
`0, 1, 2, …` — its output is exactly the ordered concatenation of the chunk
files' bytes; (2) when the assembled byte length differs from the declared
`totalSize`, `assemble` fails with `SizeMismatch` carrying the actual and
expected sizes, the temporary assembly file is removed, and the session is
left incomplete and untouched (the returned state is the input state). -/
theorem assemble_order_and_size_mismatch :
    (∀ (fs : FS) (s : Session) (cs : Nat → Bytes),
      (∀ i, i < s.totalChunks → ∃ r, getChunk s.chunks i = some r ∧
        fs.read r.path = some (cs i)) →
      readChunks fs s = some (((List.range s.totalChunks).map cs).flatten)) ∧
    (∀ (cfg : Config) (env : Env) (st : St) (sid : Nat) (s : Session) (content : Bytes),
      getSession st sid = some s → s.completed = false →
      firstMissing s = none →
      readChunks st.fs s = some content →
      content.length ≠ s.totalSize →
      st.fs.read (assembleTempPath cfg s) = none →
      assembleFile cfg env st sid =
        (.error (.sizeMismatch content.length s.totalSize), st)) := by
  constructor
  · intro fs s cs h
    have aux : ∀ n, n ≤ s.totalChunks →
        (List.range n).foldl
          (fun acc i =>
            match acc, getChunk s.chunks i with
            | some content, some r =>
              match fs.read r.path with
              | some data => some (content ++ data)
              | none => none
            | _, _ => none)
          (some []) = some (((List.range n).map cs).flatten) := by
      intro n
      induction n with
      | zero => intro _; rfl
      | succ m ih =>
        intro hm
        obtain ⟨r, hr, hread⟩ := h m (by omega)
        rw [List.range_succ, List.foldl_append, ih (by omega)]
        simp [hr, hread, List.range_succ]
    exact aux s.totalChunks le_rfl
  · intro cfg env st sid s content hs hc hfm hrc hlen htemp
    have hfs : (st.fs.write (assembleTempPath cfg s) content).unlink
        (assembleTempPath cfg s) = st.fs := by
      have h1 : (st.fs.write (assembleTempPath cfg s) content).unlink
          (assembleTempPath cfg s) = st.fs.unlink (assembleTempPath cfg s) := by
        unfold FS.write FS.unlink
        rw [List.filter_cons_of_neg (by simp)]
        rw [List.filter_filter]
        simp [Bool.and_self]
      rw [h1, FS.unlink_of_read_none htemp]
    simp only [assembleFile, hs, hc, Bool.false_eq_true, if_false, hfm, hrc,
      if_pos hlen, hfs]

/-- C6 witness: on the concrete session `sessSize`, the assembled bytes are
the ordered concatenation of its single chunk, and the 3-vs-5 length
mismatch fails with `SizeMismatch(3, 5)` leaving the state untouched. -/
theorem assemble_order_and_size_mismatch_witness :
    readChunks stSize.fs sessSize =
      some (((List.range sessSize.totalChunks).map (fun _ => [1, 2, 3])).flatten) ∧
    assembleFile cfgW envW stSize 1 = (.error (.sizeMismatch 3 5), stSize) :=
  ⟨assemble_order_and_size_mismatch.1 stSize.fs sessSize (fun _ => [1, 2, 3])
      (fun i hi => by
        have h0 : i = 0 := by
          have : sessSize.totalChunks = 1 := rfl
          omega
        subst h0
        exact ⟨_, rfl, rfl⟩),
   assemble_order_and_size_mismatch.2 cfgW envW stSize 1 sessSize [1, 2, 3] rfl rfl
     (by decide) (by decide) (by decide) rfl⟩

set_option maxRecDepth 8000 in
/-- C7 counterexample: a reachable pair of non-deleted FileRecords with the
same content hash and the same physical path but different recorded sizes —
the first upload is stored compressed (size 1), the second call
deduplicates against it but records the uploaded size 1024 — refuting the
claimed invariant that same-hash records have the same size. -/
theorem dedup_records_size_differ :
    processOneFile envW { context := "a" } stText fileT1 = (.ok recT1, stText1) ∧
    processOneFile envW { context := "b" } stText1 fileT2 = (.ok recT2, stText2) ∧
    recT1 ∈ stText2.db ∧ recT2 ∈ stText2.db ∧
    recT1.deleted = false ∧ recT2.deleted = false ∧
    recT1.fileHash = recT2.fileHash ∧ recT1.filePath = recT2.filePath ∧
    recT1.fileSize ≠ recT2.fileSize := by
  exact ⟨by decide, by decide, by decide, by decide, rfl, rfl, rfl, rfl, by decide⟩

/-- C7 (amended): records that deduplicate against an existing record share
its physical path and content hash; and `deleteFile` never removes the
physical blob — for any state whose live records carry absolute stored
paths (as the source always produces), deletion soft-deletes only the
matching row and leaves the filesystem byte-for-byte untouched, so every
other record's physical path remains resolvable (`validateFilePath` rejects
every absolute path, skipping the unlink). -/
theorem blob_shared_and_never_unlinked :
    (∀ (cfg : Config) (st : St) (fid : Nat),
      (∀ r ∈ st.db, r.deleted = false → strStartsWith r.filePath "/" = true) →
      (deleteFile cfg st fid).2.fs = st.fs ∧
      (∀ r ∈ st.db, r.id ≠ fid → r ∈ (deleteFile cfg st fid).2.db) ∧
      (∀ p, (deleteFile cfg st fid).2.fs.pathExists p = st.fs.pathExists p)) ∧
    (∀ (env : Env) (opts : ProcessOpts) (st : St) (file : UploadedFile) (c : Bytes)
        (ex : FileRecord),
      st.fs.read file.path = some c →
      findByHash st.db (sha256 c) = some ex →
      st.fs.pathExists ex.filePath = true →
      ∃ r st', processOneFile env opts st file = (.ok r, st') ∧
        r.filePath = ex.filePath ∧ r.fileHash = ex.fileHash) := by
  constructor
  · intro cfg st fid habs
    rcases hf : findById st.db fid with _ | file
    · have hres : deleteFile cfg st fid = (.ok false, st) := by
        simp only [deleteFile, hf]
      rw [hres]
      exact ⟨rfl, fun r hr _ => hr, fun p => rfl⟩
    · have hmem := List.mem_of_find?_eq_some hf
      have hpred := List.find?_some hf
      simp only [Bool.and_eq_true, Bool.not_eq_true', beq_iff_eq] at hpred
      have hval : validateFilePath cfg file.filePath = false :=
        validateFilePath_abs_false cfg (habs file hmem hpred.1)
      have hres : deleteFile cfg st fid = (.ok true, { st with db := softDelete st.db fid }) := by
        simp only [deleteFile, hf, hval]
        rfl
      rw [hres]
      refine ⟨rfl, ?_, fun p => rfl⟩
      intro r hr hid
      show r ∈ softDelete st.db fid
      unfold softDelete
      refine List.mem_map.mpr ⟨r, hr, ?_⟩
      rw [if_neg]
      simp [hid]
  · intro env opts st file c ex hread hfind hex
    obtain ⟨r, heq, hid, hfn, hfp, hsz, hhash, hdel, hctx, hub⟩ :=
      processOneFile_dedup env opts st file c ex hread hfind hex
    have hpred := List.find?_some hfind
    simp only [Bool.and_eq_true, Bool.not_eq_true', beq_iff_eq] at hpred
    exact ⟨r, _, heq, hfp, by rw [hhash, hpred.2]⟩

set_option maxRecDepth 8000 in
/-- C7 witness: the amended behaviour on concrete states — deleting the
only referencing record of `stDangling` leaves the filesystem untouched,
and the second text upload deduplicates onto `recT1`'s path and hash. -/
theorem blob_shared_and_never_unlinked_witness :
    ((deleteFile cfgW stDangling 0).2.fs = stDangling.fs ∧
      (∀ r ∈ stDangling.db, r.id ≠ 0 → r ∈ (deleteFile cfgW stDangling 0).2.db) ∧
      (∀ p, (deleteFile cfgW stDangling 0).2.fs.pathExists p =
        stDangling.fs.pathExists p)) ∧
    (∃ r st', processOneFile envW { context := "b" } stText1 fileT2 = (.ok r, st') ∧
      r.filePath = recT1.filePath ∧ r.fileHash = recT1.fileHash) :=
  ⟨blob_shared_and_never_unlinked.1 cfgW stDangling 0 (by decide),
   blob_shared_and_never_unlinked.2 envW { context := "b" } stText1 fileT2 cText recT1
     (by decide) (by decide) (by decide)⟩


/-- C10: when a successful chunk write brings the recorded count up to
`totalChunks`, `uploadChunk` runs assembly synchronously before returning:
its outcome is exactly the outcome of `assembleFile` on the
chunk-recorded state — on success the acknowledgement reports
`completed = true`, and any assembly failure (size mismatch, storage error,
…) propagates as the error of this same `uploadChunk` call. -/
theorem completion_triggers_sync_assembly (cfg : Config) (env : Env) (st : St)
    (sid : Nat) (s : Session) (idx : Nat) (buf : Bytes) (sz : Nat)
    (hwk : WellKeyed st)
    (hs : getSession st sid = some s) (hexp : isSessionExpired st s = false)
    (hidx : idx < s.totalChunks)
    (hfull : countUploaded (setChunk s.chunks idx { uploaded := true, path := chunkPathOf cfg sid idx, size := sz }) = s.totalChunks) :
    uploadChunk cfg env st sid idx buf sz true =
      match assembleFile cfg env
          (putSession { st with fs := st.fs.write (chunkPathOf cfg sid idx) buf }
            { s with chunks := setChunk s.chunks idx { uploaded := true, path := chunkPathOf cfg sid idx, size := sz } }) sid with
      | (.ok _, st2) =>
        (.ok { chunkIndex := idx, uploadedChunks := s.totalChunks,
               totalChunks := s.totalChunks, completed := true }, st2)
      | (.error e, st2) => (.error e, st2) := by
  have hwk1 : WellKeyed (putSession { st with fs := st.fs.write (chunkPathOf cfg sid idx) buf }
      { s with chunks := setChunk s.chunks idx { uploaded := true, path := chunkPathOf cfg sid idx, size := sz } }) :=
    wellKeyed_putSession (fun kv hkv => hwk kv hkv) _
  simp only [uploadChunk, hs, hexp, Bool.false_eq_true, if_false]
  rw [if_neg (by omega : ¬ s.totalChunks ≤ idx)]
  simp only [Bool.not_true, Bool.false_eq_true, if_false, hfull, if_pos rfl]
  rcases hasm : assembleFile cfg env
      (putSession { st with fs := st.fs.write (chunkPathOf cfg sid idx) buf }
        { s with chunks := setChunk s.chunks idx { uploaded := true, path := chunkPathOf cfg sid idx, size := sz } }) sid
    with ⟨res, st2⟩
  rcases res with e | f
  · rfl
  · obtain ⟨s2, hs2, hc2, -⟩ := assemble_ok_completed cfg env _ sid f st2 hwk1 hasm
    simp only [hs2, Option.getD_some, hc2]
    simp

/-- C10 witness: uploading the single missing chunk of `sessOne` triggers
synchronous assembly inside the call. -/
theorem completion_triggers_sync_assembly_witness :
    uploadChunk cfgW envW stOne 1 0 [7] 1 true =
      match assembleFile cfgW envW
          (putSession { stOne with fs := stOne.fs.write (chunkPathOf cfgW 1 0) [7] }
            { sessOne with chunks := setChunk sessOne.chunks 0 { uploaded := true, path := chunkPathOf cfgW 1 0, size := 1 } }) 1 with
      | (.ok _, st2) =>
        (.ok { chunkIndex := 0, uploadedChunks := sessOne.totalChunks,
               totalChunks := sessOne.totalChunks, completed := true }, st2)
      | (.error e, st2) => (.error e, st2) :=
  completion_triggers_sync_assembly cfgW envW stOne 1 sessOne 0 [7] 1 (by decide) rfl
    rfl (by decide) (by decide)

end Otto
